import Mathlib

/-!
Verification of the tournament core of the cue-bot repository:
bracket generation (src/services/bracketGenerator.ts), match lifecycle and
advancement (src/services/matchService.ts), and tournament completion
(src/services/tournamentService.ts), as a shallow embedding in Lean.

Conventions of the embedding:
* User identifiers (uuid strings in the database) are modelled as `String`;
  database row identifiers are modelled as `Nat` (the persistence layer
  generates opaque unique ids; sequential naturals are a faithful model of
  that). Timestamps (`new Date()`) are modelled as `Nat` values passed in
  explicitly as a `now` argument.
* JavaScript `while`/`for` loops are modelled by structural recursion on an
  explicit fuel argument whenever the loop bound is data-dependent; the fuel
  supplied at each call site is the exact number of iterations the source
  loop performs (or an upper bound for `while` loops), so the embedded
  function computes the same result as the source.
* `shuffleArray` (a uniform-random Fisher-Yates permutation) is modelled by
  letting the embedded generators take the already-shuffled participant list
  as input: every permutation of the registered participants is a possible
  shuffle result, and all verified properties are stated for an arbitrary
  input list, hence for every possible shuffle outcome.
* Database reads/writes are modelled by explicit state passing over a
  `DbState` record holding the tournament and match rows; a drizzle
  `update ... where id = x` is a map over the rows touching the rows whose
  id matches.
-/

namespace CueBot

/-- The `nextMatchPosition` values "player1" / "player2" of the generator
(`slot1`/`slot2` in the spec). -/
inductive Slot where
  | player1
  | player2
deriving Repr, DecidableEq

/-- The `bracketType` values of the generator and the matches table. -/
inductive BracketType where
  | winners
  | losers
  | grand_final
deriving Repr, DecidableEq

/-- Embedding of the `BracketMatch` interface of bracketGenerator.ts.
Optional TypeScript fields (`nextMatchId?`, `nextMatchPosition?`,
`losersNextMatchPosition?`) and nullable players are `Option`s. -/
structure BracketMatch where
  round : Nat
  position : Nat
  player1Id : Option String
  player2Id : Option String
  nextMatchId : Option Nat := none
  nextMatchPosition : Option Slot := none
  bracketType : BracketType
  losersNextMatchPosition : Option Nat := none
deriving Repr, DecidableEq

/-- Loop body of `getNextPowerOfTwo`: `while (power < n) power *= 2`,
with fuel bounding the number of iterations. -/
def getNextPowerOfTwoGo (n : Nat) : Nat → Nat → Nat
  | 0, power => power
  | fuel + 1, power => if power < n then getNextPowerOfTwoGo n fuel (power * 2) else power

/-- Embedding of `getNextPowerOfTwo`: smallest power of two that is `>= n`.
The source loop starting from `power = 1` doubles at most `n` times before
`power >= n`, so fuel `n` is exact. -/
def getNextPowerOfTwo (n : Nat) : Nat :=
  getNextPowerOfTwoGo n n 1

/-- Floor base-2 logarithm by repeated halving, with fuel (`n` halvings always
suffice to reach a value below 2). -/
def log2Go : Nat → Nat → Nat
  | 0, _ => 0
  | fuel + 1, n => if 2 ≤ n then log2Go fuel (n / 2) + 1 else 0

/-- Embedding of `calculateRounds`: `Math.log2(bracketSize)`. The source only
applies it to the power-of-two bracket size, where the JavaScript float
logarithm is exact and agrees with the floor base-2 logarithm. -/
def calculateRounds (bracketSize : Nat) : Nat :=
  log2Go bracketSize bracketSize

/-- Recursion of `generateSeedPositions`, with fuel (the source recurses on
`bracketSize / 2` until hitting `2`, which for the power-of-two inputs the
generator passes takes fewer than `bracketSize` steps). The source diverges
on inputs below 2; the fuel-out branch is unreachable for the power-of-two
inputs `>= 2` that occur. -/
def generateSeedPositionsGo : Nat → Nat → List Nat
  | _, 2 => [1, 2]
  | 0, _ => []
  | fuel + 1, bracketSize =>
    let topHalf := generateSeedPositionsGo fuel (bracketSize / 2)
    (topHalf.map (fun seed => [seed, bracketSize + 1 - seed])).flatten

/-- Embedding of `generateSeedPositions`. -/
def generateSeedPositions (bracketSize : Nat) : List Nat :=
  generateSeedPositionsGo bracketSize bracketSize

/-- One round-1 match of `generateSingleEliminationBracket` (loop index `i`,
reading the seeded slot list). `nextMatchPos = ceil((i+1)/2) + bracketSize/2`;
slot alternates with the parity of `i`; the final round gets no next pointer. -/
def singleElimRound1Match (allSlots : List (Option String)) (bracketSize totalRounds i : Nat) :
    BracketMatch :=
  let player1 := allSlots.getD (i * 2) none
  let player2 := allSlots.getD (i * 2 + 1) none
  let nextMatchPos := (i + 2) / 2 + bracketSize / 2
  let isTopHalf := i % 2 = 0
  let isFinal := totalRounds = 1
  { round := 1
    position := i + 1
    player1Id := player1
    player2Id := player2
    nextMatchId := if isFinal then none else some nextMatchPos
    nextMatchPosition :=
      if isFinal then none else some (if isTopHalf then Slot.player1 else Slot.player2)
    bracketType := BracketType.winners }

/-- One match (loop index `i`) of a round `>= 2` of
`generateSingleEliminationBracket`. `matchPosition` is the position counter at
the start of the round's block, so this match's own position is
`matchPosition + i`, and a non-final match points at
`matchPosition + i + matchesInRound + i / 2` (this reproduces the source
expression `matchPosition + matchesInRound + Math.floor(i / 2)` verbatim,
including its use of the already-advanced position counter). -/
def singleElimLaterMatch (totalRounds round matchPosition matchesInRound i : Nat) :
    BracketMatch :=
  let isFinal := round = totalRounds
  let nextMatchPos := matchPosition + i + matchesInRound + i / 2
  let isTopHalf := i % 2 = 0
  { round := round
    position := matchPosition + i
    player1Id := none
    player2Id := none
    nextMatchId := if isFinal then none else some nextMatchPos
    nextMatchPosition :=
      if isFinal then none else some (if isTopHalf then Slot.player1 else Slot.player2)
    bracketType := BracketType.winners }

/-- The rounds `2 .. totalRounds` of `generateSingleEliminationBracket`.
`stepsLeft` is the number of remaining rounds (`totalRounds - 1` at the
initial call), `matchPosition` the running position counter, and
`matchesInPrevRound` the match count of the previous round. -/
def singleElimLaterRounds (totalRounds : Nat) :
    Nat → Nat → Nat → Nat → List BracketMatch
  | 0, _, _, _ => []
  | stepsLeft + 1, round, matchPosition, matchesInPrevRound =>
    let matchesInRound := matchesInPrevRound / 2
    (List.range matchesInRound).map
      (singleElimLaterMatch totalRounds round matchPosition matchesInRound) ++
    singleElimLaterRounds totalRounds stepsLeft (round + 1)
      (matchPosition + matchesInRound) matchesInRound

/-- The slot mutation of `advanceToNextMatch`: `"player1"` writes the first
slot, anything else (including an absent designation) writes the second,
matching the source's if/else. -/
def setSlotUpd (slot : Option Slot) (playerId : String) (m : BracketMatch) : BracketMatch :=
  match slot with
  | some Slot.player1 => { m with player1Id := some playerId }
  | _ => { m with player2Id := some playerId }

/-- Write `playerId` into the designated slot of the first match whose
`position` equals `targetPos` (the embedding of the mutation performed on the
result of `matches.find` in `advanceToNextMatch`; positions are unique in the
generated list, so first-match update is exact). -/
def setSlotAtPosition (targetPos : Nat) (slot : Option Slot) (playerId : String) :
    List BracketMatch → List BracketMatch
  | [] => []
  | m :: rest =>
    if m.position = targetPos then
      setSlotUpd slot playerId m :: rest
    else
      m :: setSlotAtPosition targetPos slot playerId rest

/-- Embedding of `advanceToNextMatch`: if the current match has a
`nextMatchId`, write the player into that match's slot selected by
`nextMatchPosition` (`"player1"` goes to slot 1, anything else to slot 2,
matching the source's if/else). If no match with that position exists the
list is returned unchanged (the source's `if (!nextMatch) return`). -/
def advanceToNextMatch (ms : List BracketMatch) (currentMatch : BracketMatch)
    (playerId : String) : List BracketMatch :=
  match currentMatch.nextMatchId with
  | none => ms
  | some target => setSlotAtPosition target currentMatch.nextMatchPosition playerId ms

/-- The BYE-processing loop at the end of `generateSingleEliminationBracket`:
iterate `i` over the match list; a round-1 match with exactly one non-null
player has that player advanced to its next match. Fuel is the list length
(the loop runs exactly `matches.length` times; `advanceToNextMatch` preserves
the length). -/
def processByes : Nat → List BracketMatch → Nat → List BracketMatch
  | 0, ms, _ => ms
  | fuel + 1, ms, i =>
    match ms.get? i with
    | none => processByes fuel ms (i + 1)
    | some m =>
      let ms' :=
        if m.round = 1 then
          match m.player1Id, m.player2Id with
          | some p, none => advanceToNextMatch ms m p
          | none, some p => advanceToNextMatch ms m p
          | _, _ => ms
        else ms
      processByes fuel ms' (i + 1)

/-- The seeded slot list of `generateSingleEliminationBracket`: slot `i` is
`participants[seedPositions[i] - 1]` when that seed is within the participant
count, `null` (a BYE) otherwise. -/
def seAllSlots (participants : List String) : List (Option String) :=
  let bracketSize := getNextPowerOfTwo participants.length
  let seedPositions := generateSeedPositions bracketSize
  (List.range bracketSize).map (fun i =>
    let seedPosition := seedPositions.getD i (i + 1)
    if seedPosition ≤ participants.length then participants.get? (seedPosition - 1)
    else none)

/-- The match list `generateSingleEliminationBracket` builds before its BYE
pass: round 1 followed by all later rounds. -/
def seBase (participants : List String) : List BracketMatch :=
  let bracketSize := getNextPowerOfTwo participants.length
  let totalRounds := calculateRounds bracketSize
  let round1 := (List.range (bracketSize / 2)).map
    (singleElimRound1Match (seAllSlots participants) bracketSize totalRounds)
  round1 ++
    singleElimLaterRounds totalRounds (totalRounds - 1) 2 (bracketSize / 2 + 1)
      (bracketSize / 2)

/-- Embedding of `generateSingleEliminationBracket` (the source's commented-out
shuffle is dead code; participants are taken in the given order, seed `k`
being `participants[k-1]`): build the rounds, then run the BYE pass over the
whole list. -/
def generateSingleEliminationBracket (participants : List String) : List BracketMatch :=
  processByes (seBase participants).length (seBase participants) 0

/-- Proof-side reading of the BYE condition of the generation loop: the sole
player of a match that has exactly one non-null player, `none` otherwise. -/
def solePlayer (m : BracketMatch) : Option String :=
  match m.player1Id, m.player2Id with
  | some p, none => some p
  | none, some p => some p
  | _, _ => none

/-- Proof-side slot projection mirroring the discrimination of `setSlotUpd`:
the slot a `nextMatchPosition` designation reads from (`"player1"` reads the
first slot, anything else the second). -/
def slotProj (m : BracketMatch) (slot : Option Slot) : Option String :=
  match slot with
  | some Slot.player1 => m.player1Id
  | _ => m.player2Id

/-- Proof-side selector Boolean: `true` exactly when a slot designation picks
the first player slot under the discrimination of `setSlotUpd`. -/
def selSlot (slot : Option Slot) : Bool :=
  match slot with
  | some Slot.player1 => true
  | _ => false

/-- Proof-side projection to the fields `setSlotUpd` can never change
(everything except the two player slots). -/
def seProj (m : BracketMatch) : Nat × Nat × Option Nat × Option Slot × BracketType :=
  (m.position, m.round, m.nextMatchId, m.nextMatchPosition, m.bracketType)

/-- The generation-time error taxonomy: `generateBracket` throws for fewer
than 2 participants, `generateDoubleEliminationBracket` throws for a
participant count other than 16, and `generateBracket` throws on an unknown
format string (unreachable for the three-valued format type). -/
inductive GenError where
  | insufficientParticipants
  | unsupportedParticipantCount
  | unsupportedFormat
deriving Repr, DecidableEq

/-- Embedding of `generateDoubleEliminationBracket`. The source builds the 27
match skeletons and then fills the winner/loser routing fields in separate
loops, each assigning every routing field exactly once; the embedding builds
each match with its routing fields already set, following the source's loop
formulas verbatim:
* R1 upper, indices `i < 8`, positions `1+i`: `nextMatchId = 13 + i/2`,
  slot alternating by parity of `i`, `losersNextMatchPosition = 9 + i/2`;
* R1 lower, indices `i < 4`, positions `9+i`: `nextMatchId = 17 + i`, slot 1;
* R2 upper, positions `13+i`: `nextMatchId = 21 + i`, slot 1,
  `losersNextMatchPosition = 17 + i`;
* R2 lower, positions `17+i`: `nextMatchId = 21 + i`, slot 2;
* R3 merge, positions `21+i`: `nextMatchId = 25 + i/2`, slot alternating;
* R4 semis, positions `25+i`: `nextMatchId = 27`, slot 1 / slot 2;
* R5 final, position `27`: no routing.
The input list stands for the already-shuffled participants (see the module
comment on `shuffleArray`). -/
def generateDoubleEliminationBracket (participants : List String) :
    Except GenError (List BracketMatch) :=
  if participants.length ≠ 16 then
    Except.error GenError.unsupportedParticipantCount
  else
    let shuffled := participants
    let r1Upper := (List.range 8).map (fun i =>
      { round := 1
        position := i + 1
        player1Id := shuffled.get? (i * 2)
        player2Id := shuffled.get? (i * 2 + 1)
        nextMatchId := some (13 + i / 2)
        nextMatchPosition := some (if i % 2 = 0 then Slot.player1 else Slot.player2)
        bracketType := BracketType.winners
        losersNextMatchPosition := some (9 + i / 2) : BracketMatch })
    let r1Lower := (List.range 4).map (fun i =>
      { round := 1
        position := 9 + i
        player1Id := none
        player2Id := none
        nextMatchId := some (17 + i)
        nextMatchPosition := some Slot.player1
        bracketType := BracketType.losers : BracketMatch })
    let r2Upper := (List.range 4).map (fun i =>
      { round := 2
        position := 13 + i
        player1Id := none
        player2Id := none
        nextMatchId := some (21 + i)
        nextMatchPosition := some Slot.player1
        bracketType := BracketType.winners
        losersNextMatchPosition := some (17 + i) : BracketMatch })
    let r2Lower := (List.range 4).map (fun i =>
      { round := 2
        position := 17 + i
        player1Id := none
        player2Id := none
        nextMatchId := some (21 + i)
        nextMatchPosition := some Slot.player2
        bracketType := BracketType.losers : BracketMatch })
    let r3Merge := (List.range 4).map (fun i =>
      { round := 3
        position := 21 + i
        player1Id := none
        player2Id := none
        nextMatchId := some (25 + i / 2)
        nextMatchPosition := some (if i % 2 = 0 then Slot.player1 else Slot.player2)
        bracketType := BracketType.winners : BracketMatch })
    let r4Semi := (List.range 2).map (fun i =>
      { round := 4
        position := 25 + i
        player1Id := none
        player2Id := none
        nextMatchId := some 27
        nextMatchPosition := some (if i = 0 then Slot.player1 else Slot.player2)
        bracketType := BracketType.winners : BracketMatch })
    let r5Final : List BracketMatch :=
      [{ round := 5
         position := 27
         player1Id := none
         player2Id := none
         bracketType := BracketType.winners }]
    Except.ok (r1Upper ++ r1Lower ++ r2Upper ++ r2Lower ++ r3Merge ++ r4Semi ++ r5Final)

/-- One rotation step of the round-robin circle method: `players.pop()`
followed by `players.splice(1, 0, lastPlayer)` — the last element moves to
index 1, the head stays put. -/
def rotateOnce (players : List String) : List String :=
  match players.getLast? with
  | none => players
  | some lastPlayer =>
    match players.dropLast with
    | [] => [lastPlayer]
    | first :: rest => first :: lastPlayer :: rest

/-- The inner loop of one round-robin round: for `i < matchesPerRound`, pair
`players[i]` with `players[totalPlayers - 1 - i]`; pairings where either side
is missing or is the synthetic `"BYE"` entry produce no match. Returns the
produced matches together with the advanced position counter. -/
def roundRobinRound (totalPlayers matchesPerRound : Nat) (players : List String)
    (round startPos : Nat) : List BracketMatch × Nat :=
  (List.range matchesPerRound).foldl
    (fun acc i =>
      match players.get? i, players.get? (totalPlayers - 1 - i) with
      | some home, some away =>
        if home = "BYE" ∨ away = "BYE" then acc
        else
          (acc.1 ++
            [{ round := round
               position := acc.2
               player1Id := some home
               player2Id := some away
               bracketType := BracketType.winners : BracketMatch }],
            acc.2 + 1)
      | _, _ => acc)
    ([], startPos)

/-- The outer loop of `generateRoundRobinMatches`: emit one round, rotate,
recurse; structural recursion on the number of remaining rounds. -/
def roundRobinRounds (totalPlayers matchesPerRound : Nat) :
    Nat → Nat → List String → Nat → List BracketMatch
  | 0, _, _, _ => []
  | roundsLeft + 1, round, players, pos =>
    let step := roundRobinRound totalPlayers matchesPerRound players round pos
    step.1 ++ roundRobinRounds totalPlayers matchesPerRound roundsLeft (round + 1)
      (rotateOnce players) step.2

/-- Embedding of `generateRoundRobinMatches` (circle method; the input list
stands for the already-shuffled participants, and the synthetic bye entry is
the source's sentinel string `"BYE"`). -/
def generateRoundRobinMatches (participants : List String) : List BracketMatch :=
  let n := participants.length
  let players := if n % 2 = 1 then participants ++ ["BYE"] else participants
  let totalPlayers := players.length
  let rounds := totalPlayers - 1
  let matchesPerRound := totalPlayers / 2
  roundRobinRounds totalPlayers matchesPerRound rounds 1 players 1

/-- Proof-side predicate: pairing `i` of a round-robin round over the working
list `w` produces a match (both sides present and neither is the synthetic
`"BYE"` sentinel). -/
def rrPairValid (totalPlayers : Nat) (w : List String) (i : Nat) : Bool :=
  match w.get? i, w.get? (totalPlayers - 1 - i) with
  | some home, some away => decide (¬ (home = "BYE" ∨ away = "BYE"))
  | _, _ => false

/-- The tournament formats. -/
inductive TournamentFormat where
  | single_elimination
  | double_elimination
  | round_robin
deriving Repr, DecidableEq

/-- Embedding of `generateBracket`: fewer than two participants is rejected
before dispatch on the format. -/
def generateBracket (format : TournamentFormat) (participants : List String) :
    Except GenError (List BracketMatch) :=
  if participants.length < 2 then
    Except.error GenError.insufficientParticipants
  else
    match format with
    | TournamentFormat.single_elimination =>
      Except.ok (generateSingleEliminationBracket participants)
    | TournamentFormat.double_elimination =>
      generateDoubleEliminationBracket participants
    | TournamentFormat.round_robin =>
      Except.ok (generateRoundRobinMatches participants)

/-- Match statuses of the `matches` table. -/
inductive MatchStatus where
  | scheduled
  | in_progress
  | pending_confirmation
  | completed
  | cancelled
deriving Repr, DecidableEq

/-- Tournament statuses of the `tournaments` table. -/
inductive TournamentStatus where
  | draft
  | registration_open
  | registration_closed
  | in_progress
  | completed
  | cancelled
deriving Repr, DecidableEq

/-- A row of the `matches` table (db/schema/matches.ts). The routing-slot
fields of the generator (`nextMatchPosition`, `losersNextMatchPosition`) have
no column: only `nextMatchId` is persisted. -/
structure DbMatch where
  id : Nat
  tournamentId : Nat
  round : Nat
  position : Nat
  player1Id : Option String
  player2Id : Option String
  winnerId : Option String
  player1Score : Option Int
  player2Score : Option Int
  status : MatchStatus
  scheduledAt : Option Nat
  startedAt : Option Nat
  completedAt : Option Nat
  reportedBy : Option String
  confirmedBy : Option String
  isTechnicalResult : Bool
  technicalReason : Option String
  nextMatchId : Option Nat
  bracketType : BracketType
  createdAt : Nat
  updatedAt : Nat
deriving Repr, DecidableEq

/-- The slice of a `tournaments` row the match service reads and writes. -/
structure DbTournament where
  id : Nat
  format : TournamentFormat
  status : TournamentStatus
  winScore : Int
  updatedAt : Nat
deriving Repr, DecidableEq

/-- The database state the match service operates on. -/
structure DbState where
  tournaments : List DbTournament
  matchRows : List DbMatch
deriving Repr, DecidableEq

/-- The typed errors of the match lifecycle operations, one constructor per
distinct early-return message of matchService.ts. -/
inductive MatchError where
  /-- "Матч не найден" -/
  | matchNotFound
  /-- report: "Матч уже завершён" -/
  | matchAlreadyCompleted
  /-- report: "Матч отменён" -/
  | matchCancelled
  /-- "Вы не являетесь участником этого матча" -/
  | notParticipant
  /-- "Турнир не найден" -/
  | tournamentNotFound
  /-- report: "Один из игроков должен набрать N побед" -/
  | invalidScoreNobodyWins
  /-- report: "Оба игрока не могут выиграть" -/
  | invalidScoreBothWin
  /-- confirm/dispute: "Матч не ожидает подтверждения" -/
  | notPendingConfirmation
  /-- confirm: "Вы не можете подтвердить свой собственный результат" -/
  | selfConfirmation
  /-- start: "Не удалось обновить матч" (the update returned no row) -/
  | updateFailed
deriving Repr, DecidableEq

/-- The row lookup `db.query.matches.findFirst(where id = matchId)`; `getMatch`
additionally joins display-only player columns, which the lifecycle logic
never reads, so the row itself is the faithful model. -/
def findMatchRow (s : DbState) (matchId : Nat) : Option DbMatch :=
  s.matchRows.find? (fun m => m.id = matchId)

/-- Embedding of `getTournament`. -/
def findTournamentRow (s : DbState) (tournamentId : Nat) : Option DbTournament :=
  s.tournaments.find? (fun t => t.id = tournamentId)

/-- A drizzle `update matches set ... where id = matchId`, as a map over the
rows applying `f` to the rows whose id matches. -/
def updateMatchRow (s : DbState) (matchId : Nat) (f : DbMatch → DbMatch) : DbState :=
  { s with matchRows := s.matchRows.map (fun m => if m.id = matchId then f m else m) }

/-- Embedding of `completeTournament`: sets the tournament status to
completed (the `winnerId` argument of the source is accepted and ignored —
the champion is not stored anywhere). -/
def completeTournament (s : DbState) (tournamentId : Nat) (_winnerId : String)
    (now : Nat) : DbState :=
  { s with
    tournaments := s.tournaments.map (fun t =>
      if t.id = tournamentId then
        { t with status := TournamentStatus.completed, updatedAt := now }
      else t) }

/-- Embedding of `advanceLoserToLosersBracket`: the source computes the loser
and then returns without performing any database write ("For now, we'll skip
the detailed implementation"), so the state is unchanged. -/
def advanceLoserToLosersBracket (s : DbState) (m : DbMatch) : DbState :=
  let loserId := if m.player1Id = m.winnerId then m.player2Id else m.player1Id
  match loserId with
  | none => s
  | some _ => s

/-- Embedding of `advanceWinner`. A match without `nextMatchId` is a bracket
sink: its winner completes the tournament. Otherwise the winner is written
into the next match's slot chosen by the parity of the completed match's
`position` (odd position goes to `player1`); for a double-elimination
winners-bracket match the loser handling is then invoked (which writes
nothing, see `advanceLoserToLosersBracket`). -/
def advanceWinner (s : DbState) (matchId : Nat) (now : Nat) : DbState :=
  match findMatchRow s matchId with
  | none => s
  | some m =>
    match m.winnerId with
    | none => s
    | some winnerId =>
      match findTournamentRow s m.tournamentId with
      | none => s
      | some tournament =>
        match m.nextMatchId with
        | none => completeTournament s m.tournamentId winnerId now
        | some nextId =>
          match findMatchRow s nextId with
          | none => s
          | some nextMatch =>
            let isTopHalf := m.position % 2 = 1
            let s' :=
              if isTopHalf then
                updateMatchRow s nextMatch.id (fun n =>
                  { n with player1Id := some winnerId, updatedAt := now })
              else
                updateMatchRow s nextMatch.id (fun n =>
                  { n with player2Id := some winnerId, updatedAt := now })
            if tournament.format = TournamentFormat.double_elimination ∧
                m.bracketType = BracketType.winners then
              advanceLoserToLosersBracket s' m
            else s'

/-- Embedding of `reportResult`. All operations below return the resulting
database state together with `none` on success or the typed error on
failure; every failing path of the source returns before any write, so the
state component of a failing call is the input state. -/
def reportResult (s : DbState) (matchId : Nat) (reporterId : String)
    (player1Score player2Score : Int) (now : Nat) : DbState × Option MatchError :=
  match findMatchRow s matchId with
  | none => (s, some MatchError.matchNotFound)
  | some m =>
    if m.status = MatchStatus.completed then
      (s, some MatchError.matchAlreadyCompleted)
    else if m.status = MatchStatus.cancelled then
      (s, some MatchError.matchCancelled)
    else if m.player1Id ≠ some reporterId ∧ m.player2Id ≠ some reporterId then
      (s, some MatchError.notParticipant)
    else
      match findTournamentRow s m.tournamentId with
      | none => (s, some MatchError.tournamentNotFound)
      | some tournament =>
        let winScore := tournament.winScore
        if player1Score ≠ winScore ∧ player2Score ≠ winScore then
          (s, some MatchError.invalidScoreNobodyWins)
        else if player1Score = winScore ∧ player2Score = winScore then
          (s, some MatchError.invalidScoreBothWin)
        else
          let winnerId := if player1Score > player2Score then m.player1Id else m.player2Id
          (updateMatchRow s matchId (fun r =>
            { r with
              player1Score := some player1Score
              player2Score := some player2Score
              winnerId := winnerId
              reportedBy := some reporterId
              status := MatchStatus.pending_confirmation
              updatedAt := now }), none)

/-- Embedding of `confirmResult`: complete the match, then advance the winner. -/
def confirmResult (s : DbState) (matchId : Nat) (confirmerId : String) (now : Nat) :
    DbState × Option MatchError :=
  match findMatchRow s matchId with
  | none => (s, some MatchError.matchNotFound)
  | some m =>
    if m.status ≠ MatchStatus.pending_confirmation then
      (s, some MatchError.notPendingConfirmation)
    else if m.reportedBy = some confirmerId then
      (s, some MatchError.selfConfirmation)
    else if m.player1Id ≠ some confirmerId ∧ m.player2Id ≠ some confirmerId then
      (s, some MatchError.notParticipant)
    else
      let s' := updateMatchRow s matchId (fun r =>
        { r with
          status := MatchStatus.completed
          confirmedBy := some confirmerId
          completedAt := some now
          updatedAt := now })
      (advanceWinner s' matchId now, none)

/-- Embedding of `disputeResult`: reset to in_progress, clearing the scores,
winner and reporter (and refreshing `updatedAt`). -/
def disputeResult (s : DbState) (matchId : Nat) (userId : String) (now : Nat) :
    DbState × Option MatchError :=
  match findMatchRow s matchId with
  | none => (s, some MatchError.matchNotFound)
  | some m =>
    if m.status ≠ MatchStatus.pending_confirmation then
      (s, some MatchError.notPendingConfirmation)
    else if m.player1Id ≠ some userId ∧ m.player2Id ≠ some userId then
      (s, some MatchError.notParticipant)
    else
      (updateMatchRow s matchId (fun r =>
        { r with
          status := MatchStatus.in_progress
          player1Score := none
          player2Score := none
          winnerId := none
          reportedBy := none
          updatedAt := now }), none)

/-- Embedding of `startMatch`: an unconditional
`update matches set status = in_progress, startedAt = now where id = matchId`;
the only failure is the update returning no row (unknown match id). No status
or player-assignment validation is performed. -/
def startMatch (s : DbState) (matchId : Nat) (now : Nat) : DbState × Option MatchError :=
  match findMatchRow s matchId with
  | none => (s, some MatchError.updateFailed)
  | some _ =>
    (updateMatchRow s matchId (fun r =>
      { r with
        status := MatchStatus.in_progress
        startedAt := some now
        updatedAt := now }), none)

/-- Embedding of `determineInitialStatus`: both branches yield "scheduled". -/
def determineInitialStatus (m : BracketMatch) : MatchStatus :=
  if m.player1Id.isSome ∧ m.player2Id.isSome then MatchStatus.scheduled
  else MatchStatus.scheduled

/-- The row inserted for one bracket match by the first loop of
`createMatches` (no `nextMatchId` yet; `rowId` models the database-generated
uuid). -/
def insertedRow (tournamentId now rowId : Nat) (bm : BracketMatch) : DbMatch :=
  { id := rowId
    tournamentId := tournamentId
    round := bm.round
    position := bm.position
    player1Id := bm.player1Id
    player2Id := bm.player2Id
    winnerId := none
    player1Score := none
    player2Score := none
    status := determineInitialStatus bm
    scheduledAt := none
    startedAt := none
    completedAt := none
    reportedBy := none
    confirmedBy := none
    isTechnicalResult := false
    technicalReason := none
    nextMatchId := none
    bracketType := bm.bracketType
    createdAt := now
    updatedAt := now }

/-- The first loop of `createMatches`: insert one row per bracket match in
order, without `nextMatchId`. Row ids model the database-generated uuids as
consecutive naturals starting at `nextId` (fresh and pairwise distinct). -/
def insertBracketRowsGo (tournamentId now : Nat) :
    List BracketMatch → Nat → List DbMatch
  | [], _ => []
  | bm :: rest, nextId =>
    insertedRow tournamentId now nextId bm ::
      insertBracketRowsGo tournamentId now rest (nextId + 1)

/-- The insert loop of `createMatches`, row ids starting at `firstId`. -/
def insertBracketRows (tournamentId firstId : Nat) (bracket : List BracketMatch)
    (now : Nat) : List DbMatch :=
  insertBracketRowsGo tournamentId now bracket firstId

/-- The second loop of `createMatches`: for every bracket match with a
`nextMatchId` position, look up the created row of that match and of the
target position, and when both exist store the target's row id; when
either lookup fails the bracket entry is skipped silently and the row keeps
a null `nextMatchId`. `created` is the position-to-id list collected from
the inserts. -/
def resolveNextMatchIds (created : List (Nat × Nat)) (bracket : List BracketMatch)
    (rows : List DbMatch) : List DbMatch :=
  bracket.foldl
    (fun acc bm =>
      match bm.nextMatchId with
      | none => acc
      | some targetPos =>
        match created.find? (fun c => c.1 = bm.position),
            created.find? (fun c => c.1 = targetPos) with
        | some currentMatch, some nextMatch =>
          acc.map (fun r =>
            if r.id = currentMatch.2 then { r with nextMatchId := some nextMatch.2 } else r)
        | _, _ => acc)
    rows

/-- Embedding of `createMatches`: insert all rows, then resolve the
position-based `nextMatchId` references to row ids. -/
def createMatches (tournamentId firstId : Nat) (bracket : List BracketMatch)
    (now : Nat) : List DbMatch :=
  let rows := insertBracketRows tournamentId firstId bracket now
  let created := rows.map (fun r => (r.position, r.id))
  resolveNextMatchIds created bracket rows

/-! ### The static double-elimination routing table of spec section 4.2

The following four functions state, position by position, the wiring the
spec prescribes for the 16-entrant double-elimination bracket (spec 4.2).
They are the specification side of the refinement comparison for the
generated bracket; the implementation side is
`generateDoubleEliminationBracket` above. -/

/-- Spec 4.2: the round a bracket position belongs to (positions 1-8 and 9-12
are round 1 upper/lower, 13-16 and 17-20 round 2 upper/lower, 21-24 the
round-3 merge, 25-26 the semis, 27 the final). -/
def specRouteRound (p : Nat) : Nat :=
  if p ≤ 12 then 1
  else if p ≤ 20 then 2
  else if p ≤ 24 then 3
  else if p ≤ 26 then 4
  else 5

/-- Spec 4.2: whether a position is in the losers bracket. -/
def specRouteBracketType (p : Nat) : BracketType :=
  if (9 ≤ p ∧ p ≤ 12) ∨ (17 ≤ p ∧ p ≤ 20) then BracketType.losers
  else BracketType.winners

/-- Spec 4.2: where the winner of each position goes (R1 upper paired into R2
upper, R1 lower 1:1 into R2 lower, both round-2 lines 1:1 into the round-3
merge, round 3 paired into the semis, the semis into the final, the final
nowhere). -/
def specRouteNext (p : Nat) : Option Nat :=
  if p ≤ 8 then some (13 + (p - 1) / 2)
  else if p ≤ 12 then some (17 + (p - 9))
  else if p ≤ 16 then some (21 + (p - 13))
  else if p ≤ 20 then some (21 + (p - 17))
  else if p ≤ 24 then some (25 + (p - 21) / 2)
  else if p ≤ 26 then some 27
  else none

/-- Spec 4.2: the slot the winner takes in its next match (alternating for
the paired feeds, slot 1 for R1-lower and R2-upper winners, slot 2 for
R2-lower winners, slot 1/slot 2 for the two semis). -/
def specRouteSlot (p : Nat) : Option Slot :=
  if p ≤ 8 then some (if (p - 1) % 2 = 0 then Slot.player1 else Slot.player2)
  else if p ≤ 12 then some Slot.player1
  else if p ≤ 16 then some Slot.player1
  else if p ≤ 20 then some Slot.player2
  else if p ≤ 24 then some (if (p - 21) % 2 = 0 then Slot.player1 else Slot.player2)
  else if p ≤ 26 then some (if p = 25 then Slot.player1 else Slot.player2)
  else none

/-- Spec 4.2: where the loser of each position goes (R1-upper losers paired
into R1 lower, R2-upper losers 1:1 into R2 lower, everyone else eliminated). -/
def specRouteLoser (p : Nat) : Option Nat :=
  if p ≤ 8 then some (9 + (p - 1) / 2)
  else if 13 ≤ p ∧ p ≤ 16 then some (17 + (p - 13))
  else none

/-! ### Concrete test fixtures

Closed database states used by the counterexample and witness theorems
below. `baseRow` is a blank matches-table row (all nullable columns null,
status scheduled) from which the concrete rows are built by record update. -/

/-- A blank matches-table row for building concrete states. -/
def baseRow : DbMatch :=
  { id := 0
    tournamentId := 1
    round := 1
    position := 1
    player1Id := none
    player2Id := none
    winnerId := none
    player1Score := none
    player2Score := none
    status := MatchStatus.scheduled
    scheduledAt := none
    startedAt := none
    completedAt := none
    reportedBy := none
    confirmedBy := none
    isTechnicalResult := false
    technicalReason := none
    nextMatchId := none
    bracketType := BracketType.winners
    createdAt := 0
    updatedAt := 0 }

/-- A single-elimination tournament row (id 1, winScore 3). -/
def seTournament : DbTournament :=
  { id := 1
    format := TournamentFormat.single_elimination
    status := TournamentStatus.in_progress
    winScore := 3
    updatedAt := 0 }

/-- A double-elimination tournament row (id 1, winScore 3). -/
def deTournament : DbTournament :=
  { id := 1
    format := TournamentFormat.double_elimination
    status := TournamentStatus.in_progress
    winScore := 3
    updatedAt := 0 }

/-- Sixteen participant ids for the double-elimination fixtures. -/
def deParticipants : List String :=
  ["u1", "u2", "u3", "u4", "u5", "u6", "u7", "u8",
   "u9", "u10", "u11", "u12", "u13", "u14", "u15", "u16"]

/-- The generated 16-entrant double-elimination bracket. -/
def deBracket : List BracketMatch :=
  match generateDoubleEliminationBracket deParticipants with
  | Except.ok ms => ms
  | Except.error _ => []

/-- The fixture bracket persisted through `createMatches` (tournament 1, row
ids 100-126; the row for bracket position `p` gets id `99 + p`). -/
def deRows : List DbMatch := createMatches 1 100 deBracket 0

/-- Database state holding the persisted double-elimination fixture. -/
def deState : DbState := { tournaments := [deTournament], matchRows := deRows }

/-- The fixture state after the position-1 match (row id 100, u1 vs u2) is
started, reported 3:1 by u1 and confirmed by u2 — a completed
winners-bracket match whose advancement has run. -/
def deAfterFirstMatch : DbState :=
  (confirmResult (reportResult (startMatch deState 100 1).1 100 "u1" 3 1 2).1 100 "u2" 3).1

/-- A state with a completed round-1 losers-bracket match (position 10,
row id 209) pointing at the round-2 losers match at position 18 (row id
218), as left by an administrative technical result; its advancement has
not run yet. -/
def deLosersState : DbState :=
  { tournaments := [deTournament]
    matchRows :=
      [{ baseRow with
          id := 209, round := 1, position := 10
          player1Id := some "u3", player2Id := some "u4"
          winnerId := some "u3"
          player1Score := some 3, player2Score := some 1
          status := MatchStatus.completed
          nextMatchId := some 218
          bracketType := BracketType.losers },
       { baseRow with
          id := 218, round := 2, position := 18
          bracketType := BracketType.losers }] }

/-- A state with one in-flight single-elimination match: row id 1, players
u1 and u2, status scheduled, no next match. -/
def seScheduledState : DbState :=
  { tournaments := [seTournament]
    matchRows :=
      [{ baseRow with
          id := 1
          player1Id := some "u1", player2Id := some "u2" }] }

/-- A state whose only match is already completed and has no second player. -/
def seCompletedState : DbState :=
  { tournaments := [seTournament]
    matchRows :=
      [{ baseRow with
          id := 1
          player1Id := some "u1"
          winnerId := some "u1"
          status := MatchStatus.completed }] }

/-- A state with a pending-confirmation match: u1 reported 3:1 over u2 after
the match was started at time 10 (startedAt 10, updatedAt 20). -/
def sePendingState : DbState :=
  { tournaments := [seTournament]
    matchRows :=
      [{ baseRow with
          id := 1
          player1Id := some "u1", player2Id := some "u2"
          winnerId := some "u1"
          player1Score := some 3, player2Score := some 1
          status := MatchStatus.pending_confirmation
          reportedBy := some "u1"
          startedAt := some 10
          updatedAt := 20 }] }

/-- The pending-confirmation row of the linked fixture below: u1 reported a
3:1 win over u2; the match feeds row 2. -/
def sePendingLinkedRow : DbMatch :=
  { baseRow with
      id := 1
      position := 1
      player1Id := some "u1"
      player2Id := some "u2"
      winnerId := some "u1"
      player1Score := some 3
      player2Score := some 1
      status := MatchStatus.pending_confirmation
      reportedBy := some "u1"
      nextMatchId := some 2 }

/-- A two-match state: the pending-confirmation match of `sePendingLinkedRow`
and the empty round-2 match (row id 2) it feeds. -/
def sePendingLinkedState : DbState :=
  { tournaments := [seTournament]
    matchRows :=
      [sePendingLinkedRow,
       { baseRow with id := 2, round := 2, position := 2 }] }

/-- A one-match bracket whose `nextMatchId` names position 99, which no
match of the bracket has (a dangling cross-reference). -/
def danglingBracketMatch : BracketMatch :=
  { round := 1
    position := 1
    player1Id := some "u1"
    player2Id := some "u2"
    nextMatchId := some 99
    bracketType := BracketType.winners }

/-- The row `createMatches` produces for the dangling one-match bracket. -/
def c10Row : DbMatch := (createMatches 1 50 [danglingBracketMatch] 0).headD baseRow

/-! ## Theorems -/

/-! ### Row-store lemmas -/

/-- Mapping an id-preserving function over a row list commutes with the
first-row-with-id lookup. -/
theorem find_id_map (l : List DbMatch) (g : DbMatch → DbMatch)
    (hg : ∀ r, (g r).id = r.id) (n : Nat) :
    (l.map g).find? (fun r => r.id = n) = (l.find? (fun r => r.id = n)).map g := by
  induction l with
  | nil => rfl
  | cons a t ih =>
    by_cases ha : a.id = n
    · rw [List.map_cons, List.find?_cons_of_pos, List.find?_cons_of_pos] <;>
        simp [hg, ha]
    · rw [List.map_cons, List.find?_cons_of_neg, List.find?_cons_of_neg, ih] <;>
        simp [hg, ha]

/-- Row lookup after a conditional row update: the looked-up row is the
original one, passed through the update when its id is the updated one. -/
theorem findMatchRow_updateMatchRow (s : DbState) (mid : Nat) (f : DbMatch → DbMatch)
    (hf : ∀ r, (f r).id = r.id) (n : Nat) :
    findMatchRow (updateMatchRow s mid f) n =
      (findMatchRow s n).map (fun r => if r.id = mid then f r else r) := by
  unfold findMatchRow updateMatchRow
  exact find_id_map s.matchRows _ (fun r => by by_cases h : r.id = mid <;> simp [h, hf]) n

/-- Row updates do not touch the tournaments table. -/
theorem updateMatchRow_tournaments (s : DbState) (mid : Nat) (f : DbMatch → DbMatch) :
    (updateMatchRow s mid f).tournaments = s.tournaments := rfl

/-- Rows whose id differs from the updated one survive an update unchanged. -/
theorem mem_updateMatchRow_of_ne (s : DbState) (mid : Nat) (f : DbMatch → DbMatch)
    (r : DbMatch) (hr : r ∈ s.matchRows) (hne : r.id ≠ mid) :
    r ∈ (updateMatchRow s mid f).matchRows := by
  unfold updateMatchRow
  refine List.mem_map.2 ⟨r, hr, ?_⟩
  simp [hne]

/-- The looked-up row has the looked-up id. -/
theorem findMatchRow_id (s : DbState) (n : Nat) (m : DbMatch)
    (h : findMatchRow s n = some m) : m.id = n := by
  have := List.find?_some h
  simpa using this

/-- Looking up the updated row after an id-preserving update yields the
updated original row. -/
theorem findMatchRow_update_self (s : DbState) (mid : Nat) (f : DbMatch → DbMatch)
    (hf : ∀ r, (f r).id = r.id) (m : DbMatch) (hm : findMatchRow s mid = some m) :
    findMatchRow (updateMatchRow s mid f) mid = some (f m) := by
  rw [findMatchRow_updateMatchRow s mid f hf, hm]
  simp [findMatchRow_id s mid m hm]

/-- The loser-advancement helper never changes the state (the source computes
the loser and returns without writing). -/
theorem advanceLoserToLosersBracket_eq (s : DbState) (m : DbMatch) :
    advanceLoserToLosersBracket s m = s := by
  unfold advanceLoserToLosersBracket
  cases h : (if m.player1Id = m.winnerId then m.player2Id else m.player1Id) <;> simp

/-- C1: the claimed forward-only-pointer invariant fails on the code. In the
single-elimination bracket generated for the five participants p1..p5
(bracket size 8, positions 1-7), the round-2 match at position 6 carries
`nextMatchId = 8`, but no generated match has position 8 — the pointer is
dangling, so not every match with a set `nextMatchId` points to a match that
exists in the returned list. -/
theorem c1_singleElim_dangling_pointer_at_five_participants :
    (∃ m ∈ generateSingleEliminationBracket ["p1", "p2", "p3", "p4", "p5"],
      m.round = 2 ∧ m.position = 6 ∧ m.nextMatchId = some 8) ∧
    (∀ m ∈ generateSingleEliminationBracket ["p1", "p2", "p3", "p4", "p5"],
      m.position ≠ 8) := by decide

/-- C2: advancement does not follow the generation-time routing table.
Evaluated on the persisted 16-entrant double-elimination fixture:
(a) the bracket routes the loser of position 1 to position 9
(`losersNextMatchPosition = 9`), yet after the position-1 match (row 100) is
completed via report and confirmation (winner u1, loser u2) the position-9
losers match (row 108) still has no players — the loser write never happens;
(b) the bracket routes the winner of position 10 into slot 1 of position 18
(`nextMatchPosition = player1`), yet `advanceWinner` writes that winner into
slot 2, because it selects the slot by position parity instead of the
routing table. -/
theorem c2_advancement_ignores_generation_routing :
    (∃ bm ∈ deBracket, bm.position = 1 ∧ bm.losersNextMatchPosition = some 9) ∧
    ((findMatchRow deAfterFirstMatch 100).map (fun m => (m.status, m.winnerId)) =
      some (MatchStatus.completed, some "u1")) ∧
    ((findMatchRow deAfterFirstMatch 108).map (fun m => (m.player1Id, m.player2Id)) =
      some (none, none)) ∧
    (∃ bm ∈ deBracket, bm.position = 10 ∧ bm.nextMatchId = some 18 ∧
      bm.nextMatchPosition = some Slot.player1) ∧
    ((findMatchRow (advanceWinner deLosersState 209 5) 218).map
        (fun m => (m.player1Id, m.player2Id)) = some (none, some "u3")) := by decide

/-- C3 counterexample: `reportResult` accepts a report on a match whose
status is `scheduled` (not `in_progress`) with scores 3:5 against winScore 3
— the non-winScore side is not required to be below winScore — and crowns
the player with the larger score (u2), not the player on the side that
equals winScore (u1). -/
theorem c3_report_counterexample :
    (seTournament.winScore = 3) ∧
    ((findMatchRow seScheduledState 1).map (fun m => m.status) =
      some MatchStatus.scheduled) ∧
    ((reportResult seScheduledState 1 "u1" 3 5 7).2 = none) ∧
    ((findMatchRow (reportResult seScheduledState 1 "u1" 3 5 7).1 1).map
        (fun m => (m.status, m.winnerId, m.player1Score, m.player2Score)) =
      some (MatchStatus.pending_confirmation, some "u2", some 3, some 5)) := by decide

/-- C4 counterexample: `startMatch` succeeds on a match that is already
completed and has no second player assigned, moving it to `in_progress` —
no status or player-assignment validation is performed. -/
theorem c4_start_counterexample :
    ((findMatchRow seCompletedState 1).map (fun m => (m.status, m.player2Id)) =
      some (MatchStatus.completed, none)) ∧
    ((startMatch seCompletedState 1 5).2 = none) ∧
    ((findMatchRow (startMatch seCompletedState 1 5).1 1).map
        (fun m => (m.status, m.startedAt)) =
      some (MatchStatus.in_progress, some 5)) := by decide

/-- C8 counterexample: a successful dispute does not leave every
non-score-related field unchanged — it refreshes the `updatedAt` column
(here from 20 to 30); the start timestamp is preserved. -/
theorem c8_dispute_counterexample :
    ((findMatchRow sePendingState 1).map (fun m => (m.updatedAt, m.startedAt)) =
      some (20, some 10)) ∧
    ((disputeResult sePendingState 1 "u2" 30).2 = none) ∧
    ((findMatchRow (disputeResult sePendingState 1 "u2" 30).1 1).map
        (fun m => (m.updatedAt, m.startedAt)) = some (30, some 10)) := by decide

/-- C4 (amended): `startMatch` performs no status or player-assignment
validation: it fails (with the update-failed error, state unchanged) exactly
when the match id is unknown, and otherwise succeeds regardless of the
match's current status or missing players, setting the status to
`in_progress` and recording the start time, leaving every other field, every
other row and the tournaments table unchanged. -/
theorem c4_start_behavior (s : DbState) (mid now : Nat) :
    (findMatchRow s mid = none → startMatch s mid now = (s, some MatchError.updateFailed)) ∧
    (∀ m, findMatchRow s mid = some m →
      (startMatch s mid now).2 = none ∧
      findMatchRow (startMatch s mid now).1 mid =
        some { m with status := MatchStatus.in_progress, startedAt := some now,
                      updatedAt := now } ∧
      (startMatch s mid now).1.tournaments = s.tournaments ∧
      ∀ r ∈ s.matchRows, r.id ≠ mid → r ∈ (startMatch s mid now).1.matchRows) := by
  constructor
  · intro h
    simp only [startMatch, h]
  · intro m hm
    simp only [startMatch, hm]
    refine ⟨by trivial, ?_, by trivial, ?_⟩
    · exact findMatchRow_update_self s mid _ (by intro r; rfl) m hm
    · intro r hr hne
      exact mem_updateMatchRow_of_ne s mid _ r hr hne

/-- C4 witness: instantiating the behavior theorem on the concrete
completed-match fixture. -/
theorem c4_start_behavior_witness :
    (startMatch seCompletedState 1 5).2 = none ∧
    (findMatchRow (startMatch seCompletedState 1 5).1 1).map
      (fun m => (m.status, m.startedAt, m.updatedAt)) =
      some (MatchStatus.in_progress, some 5, 5) := by
  have h := (c4_start_behavior seCompletedState 1 5).2
    { baseRow with
        id := 1
        player1Id := some "u1"
        winnerId := some "u1"
        status := MatchStatus.completed } (by decide)
  refine ⟨h.1, ?_⟩
  rw [h.2.1]
  decide

/-- C8 (amended): a dispute of a pending-confirmation match by a participant
succeeds, resets the status to `in_progress`, clears exactly the four
score-related fields (scores, winner, reporter) and refreshes the
`updatedAt` bookkeeping column; every other field of the row — in
particular the recorded start timestamp — every other row, and the
tournaments table are unchanged, and no advancement is performed. -/
theorem c8_dispute_behavior (s : DbState) (mid : Nat) (userId : String) (now : Nat)
    (m : DbMatch) (hm : findMatchRow s mid = some m)
    (hstatus : m.status = MatchStatus.pending_confirmation)
    (hpart : m.player1Id = some userId ∨ m.player2Id = some userId) :
    (disputeResult s mid userId now).2 = none ∧
    findMatchRow (disputeResult s mid userId now).1 mid =
      some { m with status := MatchStatus.in_progress, player1Score := none,
                    player2Score := none, winnerId := none, reportedBy := none,
                    updatedAt := now } ∧
    (disputeResult s mid userId now).1.tournaments = s.tournaments ∧
    ∀ r ∈ s.matchRows, r.id ≠ mid → r ∈ (disputeResult s mid userId now).1.matchRows := by
  have h1 : ¬ (m.status ≠ MatchStatus.pending_confirmation) := by simp [hstatus]
  have h2 : ¬ (m.player1Id ≠ some userId ∧ m.player2Id ≠ some userId) := by tauto
  simp only [disputeResult, hm, if_neg h1, if_neg h2]
  refine ⟨by trivial, ?_, by trivial, ?_⟩
  · exact findMatchRow_update_self s mid _ (by intro r; rfl) m hm
  · intro r hr hne
    exact mem_updateMatchRow_of_ne s mid _ r hr hne

/-- C8 witness: instantiating the dispute behavior theorem on the concrete
pending-confirmation fixture (start timestamp 10 survives, scores are
cleared, updatedAt moves to the dispute time). -/
theorem c8_dispute_behavior_witness :
    (disputeResult sePendingState 1 "u2" 30).2 = none ∧
    (findMatchRow (disputeResult sePendingState 1 "u2" 30).1 1).map
      (fun m => (m.status, m.player1Score, m.winnerId, m.startedAt, m.updatedAt)) =
      some (MatchStatus.in_progress, none, none, some 10, 30) := by
  have h := c8_dispute_behavior sePendingState 1 "u2" 30
    { baseRow with
        id := 1
        player1Id := some "u1"
        player2Id := some "u2"
        winnerId := some "u1"
        player1Score := some 3
        player2Score := some 1
        status := MatchStatus.pending_confirmation
        reportedBy := some "u1"
        startedAt := some 10
        updatedAt := 20 } (by decide) (by decide) (Or.inr (by decide))
  refine ⟨h.1, ?_⟩
  rw [h.2.1]
  decide

/-- C3 (amended): the reporting rules the code actually implements. A report
is rejected when the match is completed or cancelled (any other status —
including scheduled and pending_confirmation — is accepted), when the
reporter is not one of the players, or over the scores exactly when no score
equals the tournament winScore (nobody-wins error) or both do (both-win
error); a score strictly above winScore on the other side is accepted. On
success the winner is the player on the side with the strictly greater
score, the scores and reporter are stored, the status becomes
pending_confirmation, and nothing else — no other row, no tournament row,
no advancement — changes. -/
theorem c3_report_behavior (s : DbState) (mid : Nat) (reporter : String)
    (p1s p2s : Int) (now : Nat) (m : DbMatch)
    (hm : findMatchRow s mid = some m) :
    (m.status = MatchStatus.completed →
      reportResult s mid reporter p1s p2s now = (s, some MatchError.matchAlreadyCompleted)) ∧
    (m.status ≠ MatchStatus.completed → m.status = MatchStatus.cancelled →
      reportResult s mid reporter p1s p2s now = (s, some MatchError.matchCancelled)) ∧
    (m.status ≠ MatchStatus.completed → m.status ≠ MatchStatus.cancelled →
      m.player1Id ≠ some reporter → m.player2Id ≠ some reporter →
      reportResult s mid reporter p1s p2s now = (s, some MatchError.notParticipant)) ∧
    (∀ t, m.status ≠ MatchStatus.completed → m.status ≠ MatchStatus.cancelled →
      (m.player1Id = some reporter ∨ m.player2Id = some reporter) →
      findTournamentRow s m.tournamentId = some t →
      (p1s ≠ t.winScore ∧ p2s ≠ t.winScore →
        reportResult s mid reporter p1s p2s now =
          (s, some MatchError.invalidScoreNobodyWins)) ∧
      (p1s = t.winScore ∧ p2s = t.winScore →
        reportResult s mid reporter p1s p2s now =
          (s, some MatchError.invalidScoreBothWin)) ∧
      ((p1s = t.winScore ∨ p2s = t.winScore) → ¬(p1s = t.winScore ∧ p2s = t.winScore) →
        (reportResult s mid reporter p1s p2s now).2 = none ∧
        findMatchRow (reportResult s mid reporter p1s p2s now).1 mid =
          some { m with player1Score := some p1s, player2Score := some p2s,
                        winnerId := if p1s > p2s then m.player1Id else m.player2Id,
                        reportedBy := some reporter,
                        status := MatchStatus.pending_confirmation, updatedAt := now } ∧
        (reportResult s mid reporter p1s p2s now).1.tournaments = s.tournaments ∧
        ∀ r ∈ s.matchRows, r.id ≠ mid →
          r ∈ (reportResult s mid reporter p1s p2s now).1.matchRows)) := by
  refine ⟨?_, ?_, ?_, ?_⟩
  · intro h1
    simp only [reportResult, hm]
    rw [if_pos h1]
  · intro h1 h2
    simp only [reportResult, hm]
    rw [if_neg h1, if_pos h2]
  · intro h1 h2 h3 h4
    simp only [reportResult, hm]
    rw [if_neg h1, if_neg h2, if_pos ⟨h3, h4⟩]
  · intro t h1 h2 hpart ht
    have hnp : ¬ (m.player1Id ≠ some reporter ∧ m.player2Id ≠ some reporter) := by tauto
    simp only [reportResult, hm, ht]
    rw [if_neg h1, if_neg h2, if_neg hnp]
    refine ⟨?_, ?_, ?_⟩
    · intro hscore
      rw [if_pos hscore]
    · intro hboth
      have hn1 : ¬ (p1s ≠ t.winScore ∧ p2s ≠ t.winScore) := by tauto
      rw [if_neg hn1, if_pos hboth]
    · intro hone hnboth
      have hn1 : ¬ (p1s ≠ t.winScore ∧ p2s ≠ t.winScore) := by tauto
      rw [if_neg hn1, if_neg hnboth]
      refine ⟨by trivial, ?_, by trivial, ?_⟩
      · exact findMatchRow_update_self s mid _ (by intro r; rfl) m hm
      · intro r hr hne
        exact mem_updateMatchRow_of_ne s mid _ r hr hne

/-- C3 witness: instantiating the report behavior theorem on the concrete
scheduled-match fixture with a regular 3:1 report by player u1. -/
theorem c3_report_behavior_witness :
    (reportResult seScheduledState 1 "u1" 3 1 7).2 = none ∧
    (findMatchRow (reportResult seScheduledState 1 "u1" 3 1 7).1 1).map
      (fun m => (m.status, m.winnerId, m.player1Score, m.player2Score, m.reportedBy)) =
      some (MatchStatus.pending_confirmation, some "u1", some 3, some 1, some "u1") := by
  have h := (c3_report_behavior seScheduledState 1 "u1" 3 1 7
    { baseRow with
        id := 1
        player1Id := some "u1"
        player2Id := some "u2" } (by decide)).2.2.2 seTournament
    (by decide) (by decide) (Or.inl (by decide)) (by decide)
  have h2 := h.2.2 (Or.inl (by decide)) (by decide)
  refine ⟨h2.1, ?_⟩
  rw [h2.2.1]
  decide

/-- Completing a tournament does not touch the match rows. -/
theorem findMatchRow_completeTournament (s : DbState) (tid : Nat) (w : String)
    (now n : Nat) :
    findMatchRow (completeTournament s tid w now) n = findMatchRow s n := rfl

/-- Row updates do not touch the tournament lookup. -/
theorem findTournamentRow_updateMatchRow (s : DbState) (mid : Nat)
    (f : DbMatch → DbMatch) (n : Nat) :
    findTournamentRow (updateMatchRow s mid f) n = findTournamentRow s n := rfl

/-- `advanceWinner` only ever writes a player slot and the bookkeeping
timestamp of some row (or the tournament status): the status, confirmation,
completion, winner and score fields of every match row survive it. -/
theorem advanceWinner_preserves_result_fields (s : DbState) (aid now n : Nat)
    (m : DbMatch) (h : findMatchRow s n = some m) :
    ∃ m', findMatchRow (advanceWinner s aid now) n = some m' ∧
      m'.status = m.status ∧ m'.confirmedBy = m.confirmedBy ∧
      m'.completedAt = m.completedAt ∧ m'.winnerId = m.winnerId ∧
      m'.player1Score = m.player1Score ∧ m'.player2Score = m.player2Score := by
  cases h1 : findMatchRow s aid with
  | none =>
    refine ⟨m, ?_, rfl, rfl, rfl, rfl, rfl, rfl⟩
    simpa only [advanceWinner, h1] using h
  | some ma =>
    cases h2 : ma.winnerId with
    | none =>
      refine ⟨m, ?_, rfl, rfl, rfl, rfl, rfl, rfl⟩
      simpa only [advanceWinner, h1, h2] using h
    | some w =>
      cases h3 : findTournamentRow s ma.tournamentId with
      | none =>
        refine ⟨m, ?_, rfl, rfl, rfl, rfl, rfl, rfl⟩
        simpa only [advanceWinner, h1, h2, h3] using h
      | some t =>
        cases h4 : ma.nextMatchId with
        | none =>
          refine ⟨m, ?_, rfl, rfl, rfl, rfl, rfl, rfl⟩
          simpa only [advanceWinner, h1, h2, h3, h4,
            findMatchRow_completeTournament] using h
        | some nid =>
          cases h5 : findMatchRow s nid with
          | none =>
            refine ⟨m, ?_, rfl, rfl, rfl, rfl, rfl, rfl⟩
            simpa only [advanceWinner, h1, h2, h3, h4, h5] using h
          | some nm =>
            simp only [advanceWinner, h1, h2, h3, h4, h5,
              advanceLoserToLosersBracket_eq, ite_self]
            by_cases hpar : ma.position % 2 = 1
            · rw [if_pos hpar]
              rw [findMatchRow_updateMatchRow s nm.id
                (fun r => { r with player1Id := some w, updatedAt := now })
                (fun r => rfl) n, h]
              refine ⟨_, rfl, ?_, ?_, ?_, ?_, ?_, ?_⟩ <;>
                by_cases hmid : m.id = nm.id <;> simp [hmid]
            · rw [if_neg hpar]
              rw [findMatchRow_updateMatchRow s nm.id
                (fun r => { r with player2Id := some w, updatedAt := now })
                (fun r => rfl) n, h]
              refine ⟨_, rfl, ?_, ?_, ?_, ?_, ?_, ?_⟩ <;>
                by_cases hmid : m.id = nm.id <;> simp [hmid]

/-- When a completed match has a winner, a known tournament and a next match
that exists, `advanceWinner` writes the winner into the next match's slot
selected by the parity of the completed match's position. -/
theorem advanceWinner_writes_parity_slot (s : DbState) (aid now : Nat) (m : DbMatch)
    (w : String) (nid : Nat) (nm : DbMatch) (t : DbTournament)
    (hm : findMatchRow s aid = some m)
    (hw : m.winnerId = some w)
    (ht : findTournamentRow s m.tournamentId = some t)
    (hnext : m.nextMatchId = some nid)
    (hnm : findMatchRow s nid = some nm) :
    ∃ nm', findMatchRow (advanceWinner s aid now) nid = some nm' ∧
      (m.position % 2 = 1 → nm'.player1Id = some w) ∧
      (¬ m.position % 2 = 1 → nm'.player2Id = some w) := by
  have hid := findMatchRow_id s nid nm hnm
  simp only [advanceWinner, hm, hw, ht, hnext, hnm,
    advanceLoserToLosersBracket_eq, ite_self]
  by_cases hpar : m.position % 2 = 1
  · rw [if_pos hpar]
    have hrw := findMatchRow_update_self s nm.id
      (fun r => { r with player1Id := some w, updatedAt := now })
      (fun r => rfl) nm (by rw [hid]; exact hnm)
    nth_rewrite 2 [hid] at hrw
    exact ⟨_, hrw, fun _ => rfl, fun hc => absurd hpar hc⟩
  · rw [if_neg hpar]
    have hrw := findMatchRow_update_self s nm.id
      (fun r => { r with player2Id := some w, updatedAt := now })
      (fun r => rfl) nm (by rw [hid]; exact hnm)
    nth_rewrite 2 [hid] at hrw
    exact ⟨_, hrw, fun hc => absurd hc hpar, fun _ => rfl⟩

/-- C7: confirming a pending-confirmation match behaves as specified. A
confirmation by the reporter fails with the self-confirmation error and
leaves the state untouched. A confirmation by a participant other than the
reporter succeeds: the match becomes completed with the confirmer and the
completion time recorded (and the reported winner kept), and advancement is
invoked for the match — when the completed match has a winner, a known
tournament and an existing next match, the winner lands in the next match's
slot selected by the completed match's position parity. -/
theorem c7_confirm_behavior (s : DbState) (mid : Nat) (confirmer : String) (now : Nat)
    (m : DbMatch) (hm : findMatchRow s mid = some m)
    (hstatus : m.status = MatchStatus.pending_confirmation) :
    (m.reportedBy = some confirmer →
      confirmResult s mid confirmer now = (s, some MatchError.selfConfirmation)) ∧
    (m.reportedBy ≠ some confirmer →
      (m.player1Id = some confirmer ∨ m.player2Id = some confirmer) →
      (confirmResult s mid confirmer now).2 = none ∧
      (∃ m', findMatchRow (confirmResult s mid confirmer now).1 mid = some m' ∧
        m'.status = MatchStatus.completed ∧ m'.confirmedBy = some confirmer ∧
        m'.completedAt = some now ∧ m'.winnerId = m.winnerId) ∧
      (∀ w nid nm t, m.winnerId = some w → m.nextMatchId = some nid → nid ≠ mid →
        findMatchRow s nid = some nm →
        findTournamentRow s m.tournamentId = some t →
        ∃ nm', findMatchRow (confirmResult s mid confirmer now).1 nid = some nm' ∧
          (m.position % 2 = 1 → nm'.player1Id = some w) ∧
          (¬ m.position % 2 = 1 → nm'.player2Id = some w))) := by
  have hns : ¬ (m.status ≠ MatchStatus.pending_confirmation) := by simp [hstatus]
  constructor
  · intro hself
    simp only [confirmResult, hm]
    rw [if_neg hns, if_pos hself]
  · intro hnself hpart
    have hnp : ¬ (m.player1Id ≠ some confirmer ∧ m.player2Id ≠ some confirmer) := by
      tauto
    simp only [confirmResult, hm]
    rw [if_neg hns, if_neg hnself, if_neg hnp]
    have hupd := findMatchRow_update_self s mid
      (fun r => { r with status := MatchStatus.completed, confirmedBy := some confirmer,
                         completedAt := some now, updatedAt := now })
      (fun r => rfl) m hm
    refine ⟨rfl, ?_, ?_⟩
    · obtain ⟨m', hfind, hst, hcb, hca, hwin, _, _⟩ :=
        advanceWinner_preserves_result_fields _ mid now mid _ hupd
      exact ⟨m', hfind, by rw [hst], by rw [hcb], by rw [hca], by rw [hwin]⟩
    · intro w nid nm t hw hnext hne hnm ht
      have hnmid := findMatchRow_id s nid nm hnm
      have hnm' : findMatchRow (updateMatchRow s mid
          (fun r => { r with status := MatchStatus.completed,
                             confirmedBy := some confirmer,
                             completedAt := some now, updatedAt := now })) nid = some nm := by
        rw [findMatchRow_updateMatchRow s mid
          (fun r => { r with status := MatchStatus.completed,
                             confirmedBy := some confirmer,
                             completedAt := some now, updatedAt := now })
          (fun r => rfl) nid, hnm]
        simp [hnmid, hne]
      exact advanceWinner_writes_parity_slot _ mid now
        { m with status := MatchStatus.completed, confirmedBy := some confirmer,
                 completedAt := some now, updatedAt := now }
        w nid nm t hupd hw ht hnext hnm'

/-- C7 witness: instantiating the confirmation behavior theorem on the
linked pending-confirmation fixture (u1 reported a 3:1 win over u2 in match
row 1, which feeds row 2): confirmation by the reporter u1 fails with the
self-confirmation error, confirmation by u2 completes the match and places
u1 into slot 1 of row 2. -/
theorem c7_confirm_behavior_witness :
    (confirmResult sePendingLinkedState 1 "u1" 40 =
      (sePendingLinkedState, some MatchError.selfConfirmation)) ∧
    ((confirmResult sePendingLinkedState 1 "u2" 40).2 = none) ∧
    (∃ m', findMatchRow (confirmResult sePendingLinkedState 1 "u2" 40).1 1 = some m' ∧
      m'.status = MatchStatus.completed ∧ m'.confirmedBy = some "u2") ∧
    (∃ nm', findMatchRow (confirmResult sePendingLinkedState 1 "u2" 40).1 2 = some nm' ∧
      nm'.player1Id = some "u1") := by
  have hself := c7_confirm_behavior sePendingLinkedState 1 "u1" 40
    sePendingLinkedRow (by decide) (by decide)
  have h := c7_confirm_behavior sePendingLinkedState 1 "u2" 40
    sePendingLinkedRow (by decide) (by decide)
  have h2 := h.2 (by decide) (Or.inr (by decide))
  refine ⟨hself.1 (by decide), h2.1, ?_, ?_⟩
  · obtain ⟨m', hf, hs, hc, _, _⟩ := h2.2.1
    exact ⟨m', hf, hs, hc⟩
  · obtain ⟨nm', hf, hp, _⟩ := h2.2.2 "u1" 2
      { baseRow with id := 2, round := 2, position := 2 } seTournament
      (by decide) (by decide) (by decide) (by decide) (by decide)
    exact ⟨nm', hf, hp (by decide)⟩

/-- Auxiliary characterization of the generated 16-entrant double-elimination
bracket: generation succeeds, the positions are exactly 1..27 in order, and
every match is wired per the routing table of spec section 4.2. -/
theorem de_bracket_table (ps : List String) (h : ps.length = 16) :
    ∃ ms, generateDoubleEliminationBracket ps = Except.ok ms ∧
      ms.map (fun m => m.position) =
        [1, 2, 3, 4, 5, 6, 7, 8, 9, 10, 11, 12, 13, 14, 15, 16, 17, 18, 19,
         20, 21, 22, 23, 24, 25, 26, 27] ∧
      (∀ m ∈ ms, 1 ≤ m.position ∧ m.position ≤ 27 ∧
        m.round = specRouteRound m.position ∧
        m.bracketType = specRouteBracketType m.position ∧
        m.nextMatchId = specRouteNext m.position ∧
        m.nextMatchPosition = specRouteSlot m.position ∧
        m.losersNextMatchPosition = specRouteLoser m.position) := by
  have h16 : ¬ ps.length ≠ 16 := by omega
  simp only [generateDoubleEliminationBracket]
  rw [if_neg h16]
  refine ⟨_, rfl, rfl, ?_⟩
  intro m hm
  simp only [List.mem_append] at hm
  rcases hm with ((((((hm | hm) | hm) | hm) | hm) | hm) | hm)
  · obtain ⟨i, hi, rfl⟩ := List.mem_map.1 hm
    rw [List.mem_range] at hi
    dsimp only
    refine ⟨by omega, by omega, ?_, ?_, ?_, ?_, ?_⟩
    · simp only [specRouteRound]
      rw [if_pos (by omega : i + 1 ≤ 12)]
    · simp only [specRouteBracketType]
      rw [if_neg (by omega)]
    · simp only [specRouteNext]
      rw [if_pos (by omega : i + 1 ≤ 8)]
      simp
    · simp only [specRouteSlot]
      rw [if_pos (by omega : i + 1 ≤ 8)]
      simp
    · simp only [specRouteLoser]
      rw [if_pos (by omega : i + 1 ≤ 8)]
      simp
  · obtain ⟨i, hi, rfl⟩ := List.mem_map.1 hm
    rw [List.mem_range] at hi
    dsimp only
    refine ⟨by omega, by omega, ?_, ?_, ?_, ?_, ?_⟩
    · simp only [specRouteRound]
      rw [if_pos (by omega : 9 + i ≤ 12)]
    · simp only [specRouteBracketType]
      rw [if_pos (by omega)]
    · simp only [specRouteNext]
      rw [if_neg (by omega), if_pos (by omega : 9 + i ≤ 12)]
      congr 1
      omega
    · simp only [specRouteSlot]
      rw [if_neg (by omega), if_pos (by omega : 9 + i ≤ 12)]
    · simp only [specRouteLoser]
      rw [if_neg (by omega), if_neg (by omega)]
  · obtain ⟨i, hi, rfl⟩ := List.mem_map.1 hm
    rw [List.mem_range] at hi
    dsimp only
    refine ⟨by omega, by omega, ?_, ?_, ?_, ?_, ?_⟩
    · simp only [specRouteRound]
      rw [if_neg (by omega), if_pos (by omega : 13 + i ≤ 20)]
    · simp only [specRouteBracketType]
      rw [if_neg (by omega)]
    · simp only [specRouteNext]
      rw [if_neg (by omega), if_neg (by omega), if_pos (by omega : 13 + i ≤ 16)]
      congr 1
      omega
    · simp only [specRouteSlot]
      rw [if_neg (by omega), if_neg (by omega), if_pos (by omega : 13 + i ≤ 16)]
    · simp only [specRouteLoser]
      rw [if_neg (by omega), if_pos (by omega : 13 ≤ 13 + i ∧ 13 + i ≤ 16)]
      congr 1
      omega
  · obtain ⟨i, hi, rfl⟩ := List.mem_map.1 hm
    rw [List.mem_range] at hi
    dsimp only
    refine ⟨by omega, by omega, ?_, ?_, ?_, ?_, ?_⟩
    · simp only [specRouteRound]
      rw [if_neg (by omega), if_pos (by omega : 17 + i ≤ 20)]
    · simp only [specRouteBracketType]
      rw [if_pos (by omega)]
    · simp only [specRouteNext]
      rw [if_neg (by omega), if_neg (by omega), if_neg (by omega),
        if_pos (by omega : 17 + i ≤ 20)]
      congr 1
      omega
    · simp only [specRouteSlot]
      rw [if_neg (by omega), if_neg (by omega), if_neg (by omega),
        if_pos (by omega : 17 + i ≤ 20)]
    · simp only [specRouteLoser]
      rw [if_neg (by omega), if_neg (by omega)]
  · obtain ⟨i, hi, rfl⟩ := List.mem_map.1 hm
    rw [List.mem_range] at hi
    dsimp only
    refine ⟨by omega, by omega, ?_, ?_, ?_, ?_, ?_⟩
    · simp only [specRouteRound]
      rw [if_neg (by omega), if_neg (by omega), if_pos (by omega : 21 + i ≤ 24)]
    · simp only [specRouteBracketType]
      rw [if_neg (by omega)]
    · simp only [specRouteNext]
      rw [if_neg (by omega), if_neg (by omega), if_neg (by omega),
        if_neg (by omega), if_pos (by omega : 21 + i ≤ 24)]
      congr 1
      omega
    · simp only [specRouteSlot]
      rw [if_neg (by omega : ¬ (21 + i ≤ 8)), if_neg (by omega : ¬ (21 + i ≤ 12)),
        if_neg (by omega : ¬ (21 + i ≤ 16)), if_neg (by omega : ¬ (21 + i ≤ 20)),
        if_pos (by omega : 21 + i ≤ 24)]
      congr 1
      simp
    · simp only [specRouteLoser]
      rw [if_neg (by omega), if_neg (by omega)]
  · obtain ⟨i, hi, rfl⟩ := List.mem_map.1 hm
    rw [List.mem_range] at hi
    dsimp only
    refine ⟨by omega, by omega, ?_, ?_, ?_, ?_, ?_⟩
    · simp only [specRouteRound]
      rw [if_neg (by omega), if_neg (by omega), if_neg (by omega),
        if_pos (by omega : 25 + i ≤ 26)]
    · simp only [specRouteBracketType]
      rw [if_neg (by omega)]
    · simp only [specRouteNext]
      rw [if_neg (by omega), if_neg (by omega), if_neg (by omega),
        if_neg (by omega), if_neg (by omega), if_pos (by omega : 25 + i ≤ 26)]
    · simp only [specRouteSlot]
      rw [if_neg (by omega : ¬ (25 + i ≤ 8)), if_neg (by omega : ¬ (25 + i ≤ 12)),
        if_neg (by omega : ¬ (25 + i ≤ 16)), if_neg (by omega : ¬ (25 + i ≤ 20)),
        if_neg (by omega : ¬ (25 + i ≤ 24)), if_pos (by omega : 25 + i ≤ 26)]
      congr 1
      interval_cases i <;> simp
    · simp only [specRouteLoser]
      rw [if_neg (by omega), if_neg (by omega)]
  · simp only [List.mem_singleton] at hm
    subst hm
    dsimp only
    refine ⟨by omega, by omega, ?_, ?_, ?_, ?_, ?_⟩
    · simp [specRouteRound]
    · simp [specRouteBracketType]
    · simp [specRouteNext]
    · simp [specRouteSlot]
    · simp [specRouteLoser]

/-- For positions 1..27, the round-5 row of the spec routing table is exactly
the one with no onward routing. -/
theorem specRoute_sink_iff (p : Nat) (h1 : 1 ≤ p) (h2 : p ≤ 27) :
    specRouteRound p = 5 ↔ specRouteNext p = none := by
  interval_cases p <;> decide

/-- C6: for every list of 16 (shuffled) participants, double-elimination
generation succeeds with exactly 27 matches at positions 1..27, each wired —
round, bracket side, winner target, winner slot and loser target — exactly
per the static routing table of spec section 4.2, with the single round-5
match (the grand final, position 27) being the unique match with no onward
routing; generation on 15 or 17 participants fails with the
unsupported-participant-count error. -/
theorem c6_doubleElim_sixteen_wiring :
    (∀ ps : List String, ps.length = 16 →
      ∃ ms, generateDoubleEliminationBracket ps = Except.ok ms ∧
        ms.length = 27 ∧
        (∀ m ∈ ms, 1 ≤ m.position ∧ m.position ≤ 27 ∧
          m.round = specRouteRound m.position ∧
          m.bracketType = specRouteBracketType m.position ∧
          m.nextMatchId = specRouteNext m.position ∧
          m.nextMatchPosition = specRouteSlot m.position ∧
          m.losersNextMatchPosition = specRouteLoser m.position) ∧
        (∀ p, 1 ≤ p → p ≤ 27 → ∃ m ∈ ms, m.position = p) ∧
        (∀ m ∈ ms, (m.round = 5 ↔ m.nextMatchId = none))) ∧
    (∀ ps : List String, ps.length = 15 ∨ ps.length = 17 →
      generateDoubleEliminationBracket ps =
        Except.error GenError.unsupportedParticipantCount) := by
  constructor
  · intro ps h
    obtain ⟨ms, hgen, hproj, htab⟩ := de_bracket_table ps h
    refine ⟨ms, hgen, ?_, htab, ?_, ?_⟩
    · have := congrArg List.length hproj
      simpa using this
    · intro p h1 h2
      have hp : p ∈ ms.map (fun m => m.position) := by
        rw [hproj]
        interval_cases p <;> decide
      obtain ⟨m, hm, he⟩ := List.mem_map.1 hp
      exact ⟨m, hm, he⟩
    · intro m hm
      obtain ⟨hb1, hb2, hr, _, hn, _, _⟩ := htab m hm
      rw [hr, hn]
      exact specRoute_sink_iff m.position hb1 hb2
  · intro ps h
    rcases h with h | h <;> simp [generateDoubleEliminationBracket, h]

/-- C6 witness: instantiating the wiring theorem on the 16 concrete fixture
participants, and the unsupported-count branch on a concrete 15-element
list. -/
theorem c6_doubleElim_sixteen_wiring_witness :
    (∃ ms, generateDoubleEliminationBracket deParticipants = Except.ok ms ∧
      ms.length = 27) ∧
    generateDoubleEliminationBracket
      ["u1", "u2", "u3", "u4", "u5", "u6", "u7", "u8", "u9", "u10", "u11",
       "u12", "u13", "u14", "u15"] =
      Except.error GenError.unsupportedParticipantCount := by
  obtain ⟨ms, hgen, hlen, -, -, -⟩ :=
    c6_doubleElim_sixteen_wiring.1 deParticipants (by decide)
  exact ⟨⟨ms, hgen, hlen⟩, c6_doubleElim_sixteen_wiring.2 _ (Or.inl (by decide))⟩

/-! ### createMatches lemmas -/

/-- The insert loop stores no `nextMatchId`. -/
theorem insertGo_nextMatchId_none (tid now : Nat) :
    ∀ (b : List BracketMatch) (fid : Nat),
      ∀ r ∈ insertBracketRowsGo tid now b fid, r.nextMatchId = none := by
  intro b
  induction b with
  | nil => intro fid r hr; simp [insertBracketRowsGo] at hr
  | cons bm rest ih =>
    intro fid r hr
    simp only [insertBracketRowsGo, List.mem_cons] at hr
    rcases hr with rfl | hr
    · rfl
    · exact ih (fid + 1) r hr

/-- Ids of inserted rows lie in `[fid, fid + length)`. -/
theorem insertGo_id_bounds (tid now : Nat) :
    ∀ (b : List BracketMatch) (fid : Nat),
      ∀ r ∈ insertBracketRowsGo tid now b fid, fid ≤ r.id ∧ r.id < fid + b.length := by
  intro b
  induction b with
  | nil => intro fid r hr; simp [insertBracketRowsGo] at hr
  | cons bm rest ih =>
    intro fid r hr
    simp only [insertBracketRowsGo, List.mem_cons] at hr
    rcases hr with rfl | hr
    · exact ⟨Nat.le_refl _, by simp [insertedRow]⟩
    · have := ih (fid + 1) r hr
      constructor
      · omega
      · simp only [List.length_cons]
        omega

/-- Two inserted rows with the same id are the same row. -/
theorem insertGo_id_inj (tid now : Nat) :
    ∀ (b : List BracketMatch) (fid : Nat), ∀ r1 r2,
      r1 ∈ insertBracketRowsGo tid now b fid →
      r2 ∈ insertBracketRowsGo tid now b fid → r1.id = r2.id → r1 = r2 := by
  intro b
  induction b with
  | nil => intro fid r1 r2 h1; simp [insertBracketRowsGo] at h1
  | cons bm rest ih =>
    intro fid r1 r2 h1 h2 hid
    simp only [insertBracketRowsGo, List.mem_cons] at h1 h2
    rcases h1 with rfl | h1 <;> rcases h2 with rfl | h2
    · rfl
    · exfalso
      have := (insertGo_id_bounds tid now rest (fid + 1) r2 h2).1
      simp only [insertedRow] at hid
      omega
    · exfalso
      have := (insertGo_id_bounds tid now rest (fid + 1) r1 h1).1
      simp only [insertedRow] at hid
      omega
    · exact ih (fid + 1) r1 r2 h1 h2 hid

/-- Every inserted row carries the position of some bracket match. -/
theorem insertGo_position_mem (tid now : Nat) :
    ∀ (b : List BracketMatch) (fid : Nat),
      ∀ r ∈ insertBracketRowsGo tid now b fid, ∃ bm ∈ b, r.position = bm.position := by
  intro b
  induction b with
  | nil => intro fid r hr; simp [insertBracketRowsGo] at hr
  | cons bm rest ih =>
    intro fid r hr
    simp only [insertBracketRowsGo, List.mem_cons] at hr
    rcases hr with rfl | hr
    · exact ⟨bm, List.mem_cons_self bm rest, rfl⟩
    · obtain ⟨bm', hbm', he⟩ := ih (fid + 1) r hr
      exact ⟨bm', List.mem_cons_of_mem bm hbm', he⟩

/-- The reference-resolution fold keeps the `nextMatchId` of the rows whose
position is that of a bracket match with a dangling target: no fold step
ever writes to such a row. -/
theorem resolve_keeps_none (bracket : List BracketMatch) (bm : BracketMatch) (p : Nat)
    (pairs₀ : List (Nat × Nat)) (created : List (Nat × Nat))
    (hnext : bm.nextMatchId = some p)
    (hnodup : (bracket.map (fun b => b.position)).Nodup)
    (hbm : bm ∈ bracket)
    (hcreated : ∀ c ∈ created, ∃ q ∈ pairs₀, q.1 = c.2 ∧ q.2 = c.1)
    (hfind : created.find? (fun c => c.1 = p) = none)
    (hids : ∀ q1 ∈ pairs₀, ∀ q2 ∈ pairs₀, q1.1 = q2.1 → q1 = q2) :
    ∀ (bs : List BracketMatch) (rows : List DbMatch),
      (∀ x ∈ bs, x ∈ bracket) →
      rows.map (fun r => (r.id, r.position)) = pairs₀ →
      (∀ r ∈ rows, r.position = bm.position → r.nextMatchId = none) →
      ∀ r ∈ resolveNextMatchIds created bs rows, r.position = bm.position →
        r.nextMatchId = none := by
  intro bs
  induction bs with
  | nil =>
    intro rows _ _ hnone r hr
    exact hnone r hr
  | cons bm' bs' ih =>
    intro rows hmem hpairs hnone
    have hstep : resolveNextMatchIds created (bm' :: bs') rows =
        resolveNextMatchIds created bs' (match bm'.nextMatchId with
          | none => rows
          | some targetPos =>
            match created.find? (fun c => c.1 = bm'.position),
                created.find? (fun c => c.1 = targetPos) with
            | some currentMatch, some nextMatch =>
              rows.map (fun r => if r.id = currentMatch.2
                then { r with nextMatchId := some nextMatch.2 } else r)
            | _, _ => rows) := rfl
    rw [hstep]
    have hmem' : ∀ x ∈ bs', x ∈ bracket := fun x hx =>
      hmem x (List.mem_cons_of_mem bm' hx)
    cases hq : bm'.nextMatchId with
    | none =>
      dsimp only
      exact ih rows hmem' hpairs hnone
    | some q =>
      dsimp only
      cases hcur : created.find? (fun c => c.1 = bm'.position) with
      | none =>
        dsimp only
        exact ih rows hmem' hpairs hnone
      | some cur =>
        cases hnxt : created.find? (fun c => c.1 = q) with
        | none =>
          dsimp only
          exact ih rows hmem' hpairs hnone
        | some nxt =>
          dsimp only
          have hpairs' : (rows.map (fun r => if r.id = cur.2
              then { r with nextMatchId := some nxt.2 } else r)).map
              (fun r => (r.id, r.position)) = pairs₀ := by
            rw [List.map_map, ← hpairs]
            apply List.map_congr_left
            intro r _
            by_cases hc : r.id = cur.2 <;> simp [hc]
          have hnone' : ∀ r' ∈ rows.map (fun r => if r.id = cur.2
              then { r with nextMatchId := some nxt.2 } else r),
              r'.position = bm.position → r'.nextMatchId = none := by
            intro r' hr' hpos'
            obtain ⟨r, hr, rfl⟩ := List.mem_map.1 hr'
            by_cases hc : r.id = cur.2
            · exfalso
              have hcurmem := List.mem_of_find?_eq_some hcur
              have hcurpred : cur.1 = bm'.position := by
                simpa using List.find?_some hcur
              obtain ⟨q₀, hq₀mem, hq₀1, hq₀2⟩ := hcreated cur hcurmem
              have hrpair : (r.id, r.position) ∈ pairs₀ := by
                rw [← hpairs]
                exact List.mem_map_of_mem _ hr
              have hpeq : (r.id, r.position) = q₀ :=
                hids _ hrpair _ hq₀mem (by rw [hq₀1, hc])
              have hrpos : r.position = bm'.position := by
                have h2 : r.position = q₀.2 := by rw [← hpeq]
                rw [h2, hq₀2, hcurpred]
              have hrbm : r.position = bm.position := by
                simpa [hc] using hpos'
              have hbmeq : bm' = bm := by
                have hbm'mem : bm' ∈ bracket := hmem bm' (List.mem_cons_self bm' bs')
                exact List.inj_on_of_nodup_map hnodup hbm'mem hbm
                  (by rw [← hrpos, hrbm])
              rw [hbmeq, hnext] at hq
              have hqp : q = p := by injection hq.symm
              rw [hqp, hfind] at hnxt
              exact Option.noConfusion hnxt
            · have hrpos : r.position = bm.position := by simpa [hc] using hpos'
              simpa [hc] using hnone r hr hrpos
          exact ih _ hmem' hpairs' hnone'

/-- Analogue of `find_id_map` for tournament rows. -/
theorem find_tournament_id_map (l : List DbTournament) (g : DbTournament → DbTournament)
    (hg : ∀ t, (g t).id = t.id) (n : Nat) :
    (l.map g).find? (fun t => t.id = n) = (l.find? (fun t => t.id = n)).map g := by
  induction l with
  | nil => rfl
  | cons a t ih =>
    by_cases ha : a.id = n
    · rw [List.map_cons, List.find?_cons_of_pos, List.find?_cons_of_pos] <;>
        simp [hg, ha]
    · rw [List.map_cons, List.find?_cons_of_neg, List.find?_cons_of_neg, ih] <;>
        simp [hg, ha]

/-- Tournament lookup after `completeTournament`: the looked-up row is the
original one, status forced to completed when its id is the completed one. -/
theorem findTournamentRow_completeTournament (s : DbState) (tid : Nat) (w : String)
    (now n : Nat) :
    findTournamentRow (completeTournament s tid w now) n =
      (findTournamentRow s n).map (fun t =>
        if t.id = tid then
          { t with status := TournamentStatus.completed, updatedAt := now }
        else t) := by
  unfold findTournamentRow completeTournament
  exact find_tournament_id_map s.tournaments _
    (fun t => by by_cases h : t.id = tid <;> simp [h]) n

/-- The looked-up tournament row has the looked-up id. -/
theorem findTournamentRow_id (s : DbState) (n : Nat) (t : DbTournament)
    (h : findTournamentRow s n = some t) : t.id = n := by
  have := List.find?_some h
  simpa using this

/-- C10: (1) when a bracket match's `nextMatchId` names a position that no
bracket match has, `createMatches` still produces the full row set and the
row created for that match keeps a null `nextMatchId` — the dangling
cross-reference is silently dropped; (2) a completed-and-confirmed match row
whose `nextMatchId` is null is treated by advancement as a bracket sink:
confirming it succeeds and marks the tournament completed. -/
theorem c10_createMatches_dangling_behavior :
    (∀ (tid fid now : Nat) (bracket : List BracketMatch) (bm : BracketMatch) (p : Nat),
      bm ∈ bracket → bm.nextMatchId = some p →
      (bracket.map (fun b => b.position)).Nodup →
      (∀ b ∈ bracket, b.position ≠ p) →
      ∀ r ∈ createMatches tid fid bracket now, r.position = bm.position →
        r.nextMatchId = none) ∧
    (∀ (s : DbState) (mid : Nat) (c : String) (now : Nat) (m : DbMatch)
      (t : DbTournament) (w : String),
      findMatchRow s mid = some m →
      m.status = MatchStatus.pending_confirmation →
      m.reportedBy ≠ some c →
      (m.player1Id = some c ∨ m.player2Id = some c) →
      m.winnerId = some w →
      m.nextMatchId = none →
      findTournamentRow s m.tournamentId = some t →
      (confirmResult s mid c now).2 = none ∧
      ∃ t', findTournamentRow (confirmResult s mid c now).1 m.tournamentId = some t' ∧
        t'.status = TournamentStatus.completed) := by
  constructor
  · intro tid fid now bracket bm p hbm hnext hnodup hmissing
    have hins := insertGo_nextMatchId_none tid now bracket fid
    refine resolve_keeps_none bracket bm p
      ((insertBracketRowsGo tid now bracket fid).map (fun r => (r.id, r.position)))
      ((insertBracketRowsGo tid now bracket fid).map (fun r => (r.position, r.id)))
      hnext hnodup hbm ?_ ?_ ?_ bracket _ (fun x hx => hx) rfl
      (fun r hr _ => hins r hr)
    · intro c hc
      obtain ⟨r, hr, rfl⟩ := List.mem_map.1 hc
      exact ⟨(r.id, r.position), List.mem_map_of_mem _ hr, rfl, rfl⟩
    · rw [List.find?_eq_none]
      intro c hc
      obtain ⟨r, hr, rfl⟩ := List.mem_map.1 hc
      obtain ⟨bmx, hbmx, he⟩ := insertGo_position_mem tid now bracket fid r hr
      simpa [he] using hmissing bmx hbmx
    · intro q1 hq1 q2 hq2 he
      obtain ⟨r1, hr1, rfl⟩ := List.mem_map.1 hq1
      obtain ⟨r2, hr2, rfl⟩ := List.mem_map.1 hq2
      rw [insertGo_id_inj tid now bracket fid r1 r2 hr1 hr2 he]
  · intro s mid c now m t w hm hstatus hnself hpart hw hnext ht
    have hns : ¬ (m.status ≠ MatchStatus.pending_confirmation) := by simp [hstatus]
    have hnp : ¬ (m.player1Id ≠ some c ∧ m.player2Id ≠ some c) := by tauto
    simp only [confirmResult, hm]
    rw [if_neg hns, if_neg hnself, if_neg hnp]
    refine ⟨rfl, ?_⟩
    have hupd := findMatchRow_update_self s mid
      (fun r => { r with status := MatchStatus.completed, confirmedBy := some c,
                         completedAt := some now, updatedAt := now })
      (fun r => rfl) m hm
    have ht' : findTournamentRow (updateMatchRow s mid
        (fun r => { r with status := MatchStatus.completed, confirmedBy := some c,
                           completedAt := some now, updatedAt := now }))
        m.tournamentId = some t := by
      rw [findTournamentRow_updateMatchRow]
      exact ht
    simp only [advanceWinner, hupd, hw, hnext, ht']
    rw [findTournamentRow_completeTournament, ht']
    have htid := findTournamentRow_id s m.tournamentId t ht
    refine ⟨{ t with status := TournamentStatus.completed, updatedAt := now }, ?_, rfl⟩
    simp [htid]

/-- C10 witness: on the concrete one-match bracket with a dangling
`nextMatchId` (position 99), the persisted row keeps a null `nextMatchId`;
and confirming the concrete pending sink match of `sePendingState` succeeds
and completes the tournament. -/
theorem c10_createMatches_dangling_behavior_witness :
    c10Row.position = 1 ∧ c10Row.nextMatchId = none ∧
    (confirmResult sePendingState 1 "u2" 50).2 = none ∧
    (∃ t', findTournamentRow (confirmResult sePendingState 1 "u2" 50).1 1 = some t' ∧
      t'.status = TournamentStatus.completed) := by
  have h1 : c10Row.nextMatchId = none :=
    c10_createMatches_dangling_behavior.1 1 50 0 [danglingBracketMatch]
      danglingBracketMatch 99 (by decide) (by decide) (by decide) (by decide)
      c10Row (by decide) (by decide)
  have h2 := c10_createMatches_dangling_behavior.2 sePendingState 1 "u2" 50
    { baseRow with
        id := 1
        player1Id := some "u1"
        player2Id := some "u2"
        winnerId := some "u1"
        player1Score := some 3
        player2Score := some 1
        status := MatchStatus.pending_confirmation
        reportedBy := some "u1"
        startedAt := some 10
        updatedAt := 20 } seTournament "u1"
    (by decide) (by decide) (by decide) (Or.inr (by decide)) (by decide)
    (by decide) (by decide)
  exact ⟨by decide, h1, h2.1, h2.2⟩

/-! ### Round-robin lemmas -/

/-- The inner round-robin fold appends one match per valid pairing, all
carrying the current round number, and advances the position counter by the
number of matches appended. -/
theorem rrRoundGo_spec (tp : Nat) (w : List String) (round : Nat) (idxs : List Nat) :
    ∀ acc : List BracketMatch × Nat,
      ∃ new, idxs.foldl
          (fun acc i =>
            match w.get? i, w.get? (tp - 1 - i) with
            | some home, some away =>
              if home = "BYE" ∨ away = "BYE" then acc
              else
                (acc.1 ++
                  [{ round := round
                     position := acc.2
                     player1Id := some home
                     player2Id := some away
                     bracketType := BracketType.winners : BracketMatch }],
                  acc.2 + 1)
            | _, _ => acc) acc =
        (acc.1 ++ new, acc.2 + new.length) ∧
      new.length = idxs.countP (fun i => rrPairValid tp w i) ∧
      ∀ m ∈ new, m.round = round := by
  induction idxs with
  | nil =>
    intro acc
    exact ⟨[], by simp, by simp, by simp⟩
  | cons i idxs ih =>
    intro acc
    rw [List.foldl_cons, List.countP_cons]
    cases hh : w.get? i with
    | none =>
      cases ha : w.get? (tp - 1 - i) with
      | none =>
        obtain ⟨new, h1, h2, h3⟩ := ih acc
        have hv : rrPairValid tp w i = false := by
          unfold rrPairValid
          rw [hh, ha]
        refine ⟨new, ?_, by simp [hv, h2], h3⟩
        simp only [hh, ha]
        exact h1
      | some away =>
        obtain ⟨new, h1, h2, h3⟩ := ih acc
        have hv : rrPairValid tp w i = false := by
          unfold rrPairValid
          rw [hh, ha]
        refine ⟨new, ?_, by simp [hv, h2], h3⟩
        simp only [hh, ha]
        exact h1
    | some home =>
      cases ha : w.get? (tp - 1 - i) with
      | none =>
        obtain ⟨new, h1, h2, h3⟩ := ih acc
        have hv : rrPairValid tp w i = false := by
          unfold rrPairValid
          rw [hh, ha]
        refine ⟨new, ?_, by simp [hv, h2], h3⟩
        simp only [hh, ha]
        exact h1
      | some away =>
        by_cases hskip : home = "BYE" ∨ away = "BYE"
        · obtain ⟨new, h1, h2, h3⟩ := ih acc
          have hv : rrPairValid tp w i = false := by
            unfold rrPairValid
            rw [hh, ha]
            simp [hskip]
          refine ⟨new, ?_, by simp [hv, h2], h3⟩
          simp only [hh, ha, if_pos hskip]
          exact h1
        · have hv : rrPairValid tp w i = true := by
            unfold rrPairValid
            rw [hh, ha]
            simp [hskip]
          obtain ⟨new, h1, h2, h3⟩ := ih
            (acc.1 ++
              [{ round := round
                 position := acc.2
                 player1Id := some home
                 player2Id := some away
                 bracketType := BracketType.winners : BracketMatch }],
              acc.2 + 1)
          refine ⟨{ round := round
                    position := acc.2
                    player1Id := some home
                    player2Id := some away
                    bracketType := BracketType.winners : BracketMatch } :: new,
            ?_, by simp [hv, h2], ?_⟩
          · simp only [hh, ha, if_neg hskip]
            rw [h1]
            simp only [Prod.mk.injEq]
            constructor
            · simp
            · simp
              omega
          · intro m hm
            rcases List.mem_cons.1 hm with rfl | hm
            · rfl
            · exact h3 m hm

/-- One round-robin round produces exactly the matches of the valid pairings,
all with the current round number. -/
theorem rrRound_spec (tp mpr : Nat) (w : List String) (round startPos : Nat) :
    ∃ new, roundRobinRound tp mpr w round startPos = (new, startPos + new.length) ∧
      new.length = (List.range mpr).countP (fun i => rrPairValid tp w i) ∧
      ∀ m ∈ new, m.round = round := by
  obtain ⟨new, h1, h2, h3⟩ := rrRoundGo_spec tp w round (List.range mpr) ([], startPos)
  exact ⟨new, by simpa [roundRobinRound] using h1, h2, h3⟩

/-- The circle-method rotation is a permutation of the working list. -/
theorem rotateOnce_perm (w : List String) : (rotateOnce w).Perm w := by
  induction w using List.reverseRecOn with
  | nil => simp [rotateOnce]
  | append_singleton xs L ih =>
    clear ih
    unfold rotateOnce
    rw [List.getLast?_concat, List.dropLast_concat]
    cases xs with
    | nil => simp
    | cons f rest =>
      have h := ((List.perm_append_singleton L rest).symm).cons f
      simpa using h

/-- A list containing the sentinel exactly once has a unique sentinel index. -/
theorem unique_bye_index (w : List String) (h : w.count "BYE" = 1) :
    ∃ j, j < w.length ∧ w.get? j = some "BYE" ∧
      ∀ i, w.get? i = some "BYE" → i = j := by
  induction w with
  | nil => simp at h
  | cons a t ih =>
    by_cases ha : a = "BYE"
    · subst ha
      have ht : t.count "BYE" = 0 := by
        rw [List.count_cons_self] at h
        omega
      have hnt : "BYE" ∉ t := List.count_eq_zero.1 ht
      refine ⟨0, by simp, by simp, ?_⟩
      intro i hi
      cases i with
      | zero => rfl
      | succ i =>
        exfalso
        simp only [List.get?_cons_succ] at hi
        exact hnt (List.get?_mem hi)
    · have ht : t.count "BYE" = 1 := by
        rwa [List.count_cons_of_ne (fun he => ha he.symm)] at h
      obtain ⟨j, hj, hget, huniq⟩ := ih ht
      refine ⟨j + 1, by simp only [List.length_cons]; omega,
        by simp only [List.get?_cons_succ]; exact hget, ?_⟩
      intro i hi
      cases i with
      | zero =>
        exfalso
        simp only [List.get?_cons_zero] at hi
        exact ha (by injection hi)
      | succ i =>
        simp only [List.get?_cons_succ] at hi
        exact congrArg (· + 1) (huniq i hi)

/-- With no sentinel in an even-length working list, every pairing of a round
is valid. -/
theorem countP_valid_no_bye (tp : Nat) (w : List String) (hlen : w.length = tp)
    (hnb : "BYE" ∉ w) :
    (List.range (tp / 2)).countP (fun i => rrPairValid tp w i) = tp / 2 := by
  have hall : ∀ i ∈ List.range (tp / 2), rrPairValid tp w i = true := by
    intro i hi
    rw [List.mem_range] at hi
    have hi1 : i < w.length := by omega
    have hi2 : tp - 1 - i < w.length := by omega
    unfold rrPairValid
    rw [List.get?_eq_get hi1, List.get?_eq_get hi2]
    have m1 := List.get_mem w i hi1
    have m2 := List.get_mem w (tp - 1 - i) hi2
    simp only [decide_eq_true_eq]
    rintro (he | he)
    · exact hnb (he ▸ m1)
    · exact hnb (he ▸ m2)
  calc (List.range (tp / 2)).countP (fun i => rrPairValid tp w i)
      = (List.range (tp / 2)).length := List.countP_eq_length.2 hall
    _ = tp / 2 := List.length_range _

/-- Counting the indices of `range n` different from a fixed `k < n`. -/
theorem countP_range_ne (n k : Nat) (hk : k < n) :
    (List.range n).countP (fun i => decide (¬ i = k)) = n - 1 := by
  induction n with
  | zero => omega
  | succ n ih =>
    rw [List.range_succ, List.countP_append]
    by_cases hkn : k < n
    · rw [ih hkn]
      have hne : ¬ n = k := by omega
      have h1 : List.countP (fun i => decide (¬ i = k)) [n] = 1 := by
        simp [List.countP_cons, hne]
      omega
    · have hkn' : k = n := by omega
      subst hkn'
      have h1 : (List.range k).countP (fun i => decide (¬ i = k)) = k := by
        have hall : ∀ a ∈ List.range k, (fun i => decide (¬ i = k)) a := by
          intro a ha
          rw [List.mem_range] at ha
          simp only [decide_eq_true_eq]
          omega
        rw [List.countP_eq_length.2 hall, List.length_range]
      have h2 : List.countP (fun i => decide (¬ i = k)) [k] = 0 := by
        simp [List.countP_cons]
      omega

/-- With exactly one sentinel in an even-length working list, exactly one
pairing of a round is skipped. -/
theorem countP_valid_one_bye (tp : Nat) (w : List String) (hlen : w.length = tp)
    (heven : tp % 2 = 0) (hcount : w.count "BYE" = 1) :
    (List.range (tp / 2)).countP (fun i => rrPairValid tp w i) = tp / 2 - 1 := by
  obtain ⟨j, hj, hgetj, huniq⟩ := unique_bye_index w hcount
  rw [hlen] at hj
  set k := if j < tp / 2 then j else tp - 1 - j with hkdef
  have hk : k < tp / 2 := by
    rw [hkdef]
    by_cases hjs : j < tp / 2
    · rw [if_pos hjs]
      exact hjs
    · rw [if_neg hjs]
      omega
  have hiff : ∀ i ∈ List.range (tp / 2),
      rrPairValid tp w i ↔ (fun i => decide (¬ i = k)) i := by
    intro i hi
    rw [List.mem_range] at hi
    have hi1 : i < w.length := by omega
    have hi2 : tp - 1 - i < w.length := by omega
    unfold rrPairValid
    rw [List.get?_eq_get hi1, List.get?_eq_get hi2]
    simp only [decide_eq_true_eq]
    constructor
    · intro hvalid heq
      by_cases hjs : j < tp / 2
      · rw [hkdef, if_pos hjs] at heq
        subst heq
        refine hvalid (Or.inl ?_)
        have h2 := hgetj
        rw [List.get?_eq_get hi1] at h2
        injection h2
      · rw [hkdef, if_neg hjs] at heq
        have hji : tp - 1 - i = j := by omega
        refine hvalid (Or.inr ?_)
        have h2 := hgetj
        rw [← hji, List.get?_eq_get hi2] at h2
        injection h2
    · intro hne
      rintro (he | he)
      · have hij : i = j := huniq i (by rw [List.get?_eq_get hi1, he])
        subst hij
        rw [hkdef, if_pos hi] at hne
        exact hne rfl
      · have hji : tp - 1 - i = j := huniq _ (by rw [List.get?_eq_get hi2, he])
        by_cases hjs : j < tp / 2
        · omega
        · rw [hkdef, if_neg hjs] at hne
          exact hne (by omega)
  rw [List.countP_congr hiff, countP_range_ne (tp / 2) k hk]

/-- The outer round-robin recursion: with a fixed per-round match count, the
schedule has `roundsLeft * perRound` matches, all round numbers lie in
`[round, round + roundsLeft)`, and (when a round produces at least one
match) every round number in that interval occurs. -/
theorem rrRounds_spec (tp mpr perRound c : Nat)
    (hper : ∀ w : List String, w.length = tp → w.count "BYE" = c →
      (List.range mpr).countP (fun i => rrPairValid tp w i) = perRound) :
    ∀ (roundsLeft round pos : Nat) (w : List String),
      w.length = tp → w.count "BYE" = c →
      (roundRobinRounds tp mpr roundsLeft round w pos).length = roundsLeft * perRound ∧
      (∀ m ∈ roundRobinRounds tp mpr roundsLeft round w pos,
        round ≤ m.round ∧ m.round < round + roundsLeft) ∧
      (1 ≤ perRound → ∀ r, round ≤ r → r < round + roundsLeft →
        ∃ m ∈ roundRobinRounds tp mpr roundsLeft round w pos, m.round = r) := by
  intro roundsLeft
  induction roundsLeft with
  | zero =>
    intro round pos w hw hc
    refine ⟨by simp [roundRobinRounds], ?_, ?_⟩
    · intro m hm
      simp [roundRobinRounds] at hm
    · intro _ r h1 h2
      omega
  | succ rl ih =>
    intro round pos w hw hc
    obtain ⟨new, hstep, hlen, hround⟩ := rrRound_spec tp mpr w round pos
    have hlen' : new.length = perRound := by
      rw [hlen]
      exact hper w hw hc
    have hwrot : (rotateOnce w).length = tp := by
      rw [(rotateOnce_perm w).length_eq]
      exact hw
    have hcrot : (rotateOnce w).count "BYE" = c := by
      rw [(rotateOnce_perm w).count_eq]
      exact hc
    obtain ⟨ihlen, ihbound, ihcov⟩ :=
      ih (round + 1) (pos + new.length) (rotateOnce w) hwrot hcrot
    have hunf : roundRobinRounds tp mpr (rl + 1) round w pos =
        new ++ roundRobinRounds tp mpr rl (round + 1) (rotateOnce w)
          (pos + new.length) := by
      simp only [roundRobinRounds]
      rw [hstep]
    rw [hunf]
    refine ⟨?_, ?_, ?_⟩
    · rw [List.length_append, ihlen, hlen', Nat.succ_mul]
      omega
    · intro m hm
      rcases List.mem_append.1 hm with hm | hm
      · have := hround m hm
        omega
      · have := ihbound m hm
        omega
    · intro hp r h1 h2
      by_cases hr : r = round
      · subst hr
        have hpos : 0 < new.length := by omega
        obtain ⟨m, hm⟩ := List.exists_mem_of_length_pos hpos
        exact ⟨m, List.mem_append_left _ hm, hround m hm⟩
      · obtain ⟨m, hm, hmr⟩ := ihcov hp r (by omega) (by omega)
        exact ⟨m, List.mem_append_right _ hm, hmr⟩

/-- C9: for every participant list of size at least 2 (whose real user ids
are never the synthetic string "BYE"), round-robin generation produces
exactly N(N-1)/2 matches, and the round numbers of the produced matches
range over exactly 1..N-1 when N is even and 1..N when N is odd. -/
theorem c9_roundRobin_counts (ps : List String) (hn : 2 ≤ ps.length)
    (hbye : "BYE" ∉ ps) :
    (generateRoundRobinMatches ps).length = ps.length * (ps.length - 1) / 2 ∧
    ∀ r, (∃ m ∈ generateRoundRobinMatches ps, m.round = r) ↔
      (1 ≤ r ∧ r ≤ (if ps.length % 2 = 0 then ps.length - 1 else ps.length)) := by
  by_cases hodd : ps.length % 2 = 1
  · have hgen : generateRoundRobinMatches ps =
        roundRobinRounds (ps.length + 1) ((ps.length + 1) / 2) (ps.length) 1
          (ps ++ ["BYE"]) 1 := by
      simp [generateRoundRobinMatches, if_pos hodd]
    have hc1 : (ps ++ ["BYE"]).count "BYE" = 1 := by
      rw [List.count_append, List.count_eq_zero.2 hbye]
      simp
    obtain ⟨hL, hB, hC⟩ := rrRounds_spec (ps.length + 1) ((ps.length + 1) / 2)
      ((ps.length + 1) / 2 - 1) 1
      (fun w hw hc => countP_valid_one_bye (ps.length + 1) w hw (by omega) hc)
      ps.length 1 1 (ps ++ ["BYE"]) (by simp) hc1
    have hper1 : 1 ≤ (ps.length + 1) / 2 - 1 := by omega
    constructor
    · rw [hgen, hL]
      have hm2 : ps.length - 1 = 2 * ((ps.length - 1) / 2) := by omega
      have hpr : (ps.length + 1) / 2 - 1 = (ps.length - 1) / 2 := by omega
      rw [hpr]
      calc ps.length * ((ps.length - 1) / 2)
          = 2 * (ps.length * ((ps.length - 1) / 2)) / 2 := by omega
        _ = ps.length * (2 * ((ps.length - 1) / 2)) / 2 := by ring_nf
        _ = ps.length * (ps.length - 1) / 2 := by rw [← hm2]
    · intro r
      rw [hgen, if_neg (by omega : ¬ ps.length % 2 = 0)]
      constructor
      · rintro ⟨m, hm, rfl⟩
        have := hB m hm
        omega
      · rintro ⟨h1, h2⟩
        exact hC hper1 r h1 (by omega)
  · have heven : ps.length % 2 = 0 := by omega
    have hgen : generateRoundRobinMatches ps =
        roundRobinRounds ps.length (ps.length / 2) (ps.length - 1) 1 ps 1 := by
      simp [generateRoundRobinMatches, hodd]
    have hc0 : ps.count "BYE" = 0 := List.count_eq_zero.2 hbye
    obtain ⟨hL, hB, hC⟩ := rrRounds_spec ps.length (ps.length / 2)
      (ps.length / 2) 0
      (fun w hw hc => countP_valid_no_bye ps.length w hw (List.count_eq_zero.1 hc))
      (ps.length - 1) 1 1 ps rfl hc0
    have hper1 : 1 ≤ ps.length / 2 := by omega
    constructor
    · rw [hgen, hL]
      have hm2 : ps.length = 2 * (ps.length / 2) := by omega
      calc (ps.length - 1) * (ps.length / 2)
          = 2 * ((ps.length - 1) * (ps.length / 2)) / 2 := by omega
        _ = (ps.length - 1) * (2 * (ps.length / 2)) / 2 := by ring_nf
        _ = (ps.length - 1) * ps.length / 2 := by rw [← hm2]
        _ = ps.length * (ps.length - 1) / 2 := by rw [Nat.mul_comm]
    · intro r
      rw [hgen, if_pos heven]
      constructor
      · rintro ⟨m, hm, rfl⟩
        have := hB m hm
        omega
      · rintro ⟨h1, h2⟩
        exact hC hper1 r h1 (by omega)

/-- C9 witness: instantiating the round-robin count theorem on three and
four concrete participants (3 matches over rounds 1..3, and 6 matches). -/
theorem c9_roundRobin_counts_witness :
    (generateRoundRobinMatches ["a", "b", "c"]).length = 3 ∧
    (∃ m ∈ generateRoundRobinMatches ["a", "b", "c"], m.round = 3) ∧
    (generateRoundRobinMatches ["a", "b", "c", "d"]).length = 6 := by
  have h3 := c9_roundRobin_counts ["a", "b", "c"] (by decide) (by decide)
  have h4 := c9_roundRobin_counts ["a", "b", "c", "d"] (by decide) (by decide)
  refine ⟨?_, ?_, ?_⟩
  · rw [h3.1]
    decide
  · exact (h3.2 3).2 (by decide)
  · rw [h4.1]
    decide

/-- The doubling loop of `getNextPowerOfTwo` never stops below `n` while fuel
remains: with enough fuel the result is at least `n`. -/
theorem getNextPowerOfTwoGo_ge (n : Nat) :
    ∀ fuel power, n ≤ power * 2 ^ fuel → n ≤ getNextPowerOfTwoGo n fuel power := by
  intro fuel
  induction fuel with
  | zero => intro power h; simpa using h
  | succ f ih =>
    intro power h
    unfold getNextPowerOfTwoGo
    by_cases hlt : power < n
    · rw [if_pos hlt]
      apply ih
      calc n ≤ power * 2 ^ (f + 1) := h
        _ = power * 2 * 2 ^ f := by ring
    · rw [if_neg hlt]; omega

/-- The doubling loop preserves being a power of two. -/
theorem getNextPowerOfTwoGo_pow (n : Nat) :
    ∀ fuel power, (∃ j, power = 2 ^ j) →
      ∃ j, getNextPowerOfTwoGo n fuel power = 2 ^ j := by
  intro fuel
  induction fuel with
  | zero => intro power h; exact h
  | succ f ih =>
    intro power h
    unfold getNextPowerOfTwoGo
    by_cases hlt : power < n
    · rw [if_pos hlt]
      apply ih
      obtain ⟨j, hj⟩ := h
      exact ⟨j + 1, by rw [hj]; ring⟩
    · rw [if_neg hlt]; exact h

/-- `getNextPowerOfTwo n` is a power of two that is at least `n`. -/
theorem getNextPowerOfTwo_spec (n : Nat) :
    ∃ k, getNextPowerOfTwo n = 2 ^ k ∧ n ≤ 2 ^ k := by
  obtain ⟨k, hk⟩ := getNextPowerOfTwoGo_pow n n 1 ⟨0, rfl⟩
  refine ⟨k, hk, ?_⟩
  rw [← hk]
  exact getNextPowerOfTwoGo_ge n n 1 (by simpa using (Nat.lt_two_pow n).le)

/-- Repeated halving computes the exact exponent of a power of two. -/
theorem log2Go_pow : ∀ k fuel, k ≤ fuel → log2Go fuel (2 ^ k) = k := by
  intro k
  induction k with
  | zero =>
    intro fuel _
    cases fuel with
    | zero => rfl
    | succ f => simp [log2Go]
  | succ j ih =>
    intro fuel hf
    cases fuel with
    | zero => omega
    | succ f =>
      have h2 : 2 ≤ 2 ^ (j + 1) := by
        calc (2 : Nat) = 2 ^ 1 := rfl
          _ ≤ 2 ^ (j + 1) := Nat.pow_le_pow_right (by norm_num) (by omega)
      have hdiv : 2 ^ (j + 1) / 2 = 2 ^ j := by
        rw [pow_succ]; exact Nat.mul_div_cancel _ (by norm_num)
      simp only [log2Go, if_pos h2, hdiv]
      rw [ih f (by omega)]

/-- `calculateRounds` of a power of two is its exponent. -/
theorem calculateRounds_pow (k : Nat) : calculateRounds (2 ^ k) = k :=
  log2Go_pow k (2 ^ k) (Nat.lt_two_pow k).le

/-- `setSlotUpd` changes only the two player slots. -/
theorem seProj_setSlotUpd (slot : Option Slot) (p : String) (m : BracketMatch) :
    seProj (setSlotUpd slot p m) = seProj m := by
  cases slot with
  | none => rfl
  | some s => cases s <;> rfl

/-- Reading back the slot `setSlotUpd` wrote yields the written player. -/
theorem slotProj_setSlotUpd_same (slot : Option Slot) (p : String) (m : BracketMatch) :
    slotProj (setSlotUpd slot p m) slot = some p := by
  cases slot with
  | none => rfl
  | some s => cases s <;> rfl

/-- Writing through one slot designation leaves the reading of a designation
that selects the other slot unchanged. -/
theorem slotProj_setSlotUpd_other (slot slot' : Option Slot) (p : String) (m : BracketMatch)
    (h : selSlot slot ≠ selSlot slot') :
    slotProj (setSlotUpd slot p m) slot' = slotProj m slot' := by
  cases slot with
  | none =>
    cases slot' with
    | none => exact absurd rfl h
    | some s' =>
      cases s' with
      | player1 => rfl
      | player2 => exact absurd rfl h
  | some s =>
    cases s with
    | player1 =>
      cases slot' with
      | none => rfl
      | some s' =>
        cases s' with
        | player1 => exact absurd rfl h
        | player2 => rfl
    | player2 =>
      cases slot' with
      | none => exact absurd rfl h
      | some s' =>
        cases s' with
        | player1 => rfl
        | player2 => exact absurd rfl h

/-- `setSlotAtPosition` preserves every non-player field of every entry. -/
theorem setSlot_map_seProj (t : Nat) (slot : Option Slot) (p : String) :
    ∀ ms : List BracketMatch,
      (setSlotAtPosition t slot p ms).map seProj = ms.map seProj := by
  intro ms
  induction ms with
  | nil => rfl
  | cons m rest ih =>
    unfold setSlotAtPosition
    by_cases h : m.position = t
    · rw [if_pos h]
      simp only [List.map_cons, seProj_setSlotUpd]
    · rw [if_neg h]
      simp only [List.map_cons, ih]

/-- An index whose entry's position differs from the target is untouched by
`setSlotAtPosition`. -/
theorem setSlot_get?_of_ne (t : Nat) (slot : Option Slot) (p : String) :
    ∀ (ms : List BracketMatch) (j : Nat),
      (∀ m, ms.get? j = some m → m.position ≠ t) →
      (setSlotAtPosition t slot p ms).get? j = ms.get? j := by
  intro ms
  induction ms with
  | nil => intro j _; rfl
  | cons m rest ih =>
    intro j hj
    unfold setSlotAtPosition
    by_cases h : m.position = t
    · rw [if_pos h]
      cases j with
      | zero => exact absurd h (hj m rfl)
      | succ j' => rfl
    · rw [if_neg h]
      cases j with
      | zero => rfl
      | succ j' => exact ih j' (fun m' hm' => hj m' hm')

/-- At the first index holding the target position, `setSlotAtPosition`
replaces the entry by its `setSlotUpd` update. -/
theorem setSlot_get?_first (t : Nat) (slot : Option Slot) (p : String) :
    ∀ (ms : List BracketMatch) (j : Nat) (m : BracketMatch),
      ms.get? j = some m → m.position = t →
      (∀ j' m', j' < j → ms.get? j' = some m' → m'.position ≠ t) →
      (setSlotAtPosition t slot p ms).get? j = some (setSlotUpd slot p m) := by
  intro ms
  induction ms with
  | nil => intro j m hm _ _; simp at hm
  | cons a rest ih =>
    intro j m hm hpos hfirst
    unfold setSlotAtPosition
    by_cases h : a.position = t
    · rw [if_pos h]
      cases j with
      | zero =>
        injection hm with hm'
        subst hm'
        rfl
      | succ j' => exact absurd h (hfirst 0 a (Nat.succ_pos j') rfl)
    · rw [if_neg h]
      cases j with
      | zero =>
        injection hm with hm'
        subst hm'
        exact absurd hpos h
      | succ j' =>
        exact ih j' m hm hpos (fun j'' m'' hlt hm'' => hfirst (j'' + 1) m'' (by omega) hm'')


/-- `get?` through `map`. -/
theorem get?_map_alt {α β : Type} (f : α → β) :
    ∀ (l : List α) (j : Nat), (l.map f).get? j = (l.get? j).map f := by
  intro l
  induction l with
  | nil => intro j; rfl
  | cons a l ih =>
    intro j
    cases j with
    | zero => rfl
    | succ j' => exact ih j'

/-- `get?` of an append, left part. -/
theorem get?_append_left_alt {α : Type} :
    ∀ (l1 l2 : List α) (j : Nat), j < l1.length → (l1 ++ l2).get? j = l1.get? j := by
  intro l1
  induction l1 with
  | nil => intro l2 j h; simp at h
  | cons a l ih =>
    intro l2 j h
    cases j with
    | zero => rfl
    | succ j' =>
      exact ih l2 j' (by simp [List.length_cons] at h; omega)

/-- `get?` of an append, right part. -/
theorem get?_append_right_alt {α : Type} :
    ∀ (l1 l2 : List α) (j : Nat), l1.length ≤ j →
      (l1 ++ l2).get? j = l2.get? (j - l1.length) := by
  intro l1
  induction l1 with
  | nil => intro l2 j _; rfl
  | cons a l ih =>
    intro l2 j h
    cases j with
    | zero => simp at h
    | succ j' =>
      have := ih l2 j' (by simp [List.length_cons] at h; omega)
      simpa [List.length_cons, Nat.succ_sub_succ] using this

/-- `get?` of `range'`. -/
theorem get?_range'_alt : ∀ (n s j : Nat), j < n → (List.range' s n).get? j = some (s + j) := by
  intro n
  induction n with
  | zero => intro s j h; omega
  | succ n' ih =>
    intro s j h
    cases j with
    | zero => simp
    | succ j' =>
      have : (List.range' s (n' + 1)).get? (j' + 1) = (List.range' (s + 1) n').get? j' := rfl
      rw [this, ih (s + 1) j' (by omega)]
      congr 1
      omega

/-- Positions of a block of matches built by mapping a position-affine
constructor over `List.range`. -/
theorem map_pos_range (f : Nat → BracketMatch) (c n : Nat)
    (hf : ∀ i, (f i).position = c + i) :
    ((List.range n).map f).map (fun m => m.position) = List.range' c n := by
  rw [List.map_map, List.range'_eq_map_range]
  exact List.map_congr_left (fun a _ => hf a)

/-- The later-rounds generator produces consecutive positions starting at its
position counter. -/
theorem laterRounds_positions (tr : Nat) :
    ∀ sl r mp mpr, ∃ len,
      (singleElimLaterRounds tr sl r mp mpr).map (fun m => m.position) =
        List.range' mp len := by
  intro sl
  induction sl with
  | zero => exact fun r mp mpr => ⟨0, rfl⟩
  | succ s ih =>
    intro r mp mpr
    obtain ⟨len, hlen⟩ := ih (r + 1) (mp + mpr / 2) (mpr / 2)
    refine ⟨len + mpr / 2, ?_⟩
    have hstep : singleElimLaterRounds tr (s + 1) r mp mpr =
        (List.range (mpr / 2)).map (singleElimLaterMatch tr r mp (mpr / 2)) ++
          singleElimLaterRounds tr s (r + 1) (mp + mpr / 2) (mpr / 2) := rfl
    rw [hstep, List.map_append, hlen,
      map_pos_range (singleElimLaterMatch tr r mp (mpr / 2)) mp (mpr / 2) (fun i => rfl)]
    have happ := List.range'_append mp (mpr / 2) len 1
    have h1 : mp + 1 * (mpr / 2) = mp + mpr / 2 := by ring
    rw [h1] at happ
    exact happ

/-- Every match the later-rounds generator emits carries a round number at
least the round counter it was called with. -/
theorem laterRounds_round_ge (tr : Nat) :
    ∀ sl r mp mpr m, m ∈ singleElimLaterRounds tr sl r mp mpr → r ≤ m.round := by
  intro sl
  induction sl with
  | zero =>
    intro r mp mpr m hm
    simp [singleElimLaterRounds] at hm
  | succ s ih =>
    intro r mp mpr m hm
    have hstep : singleElimLaterRounds tr (s + 1) r mp mpr =
        (List.range (mpr / 2)).map (singleElimLaterMatch tr r mp (mpr / 2)) ++
          singleElimLaterRounds tr s (r + 1) (mp + mpr / 2) (mpr / 2) := rfl
    rw [hstep] at hm
    rcases List.mem_append.1 hm with h | h
    · obtain ⟨i, _, hi⟩ := List.mem_map.1 h
      rw [← hi]
      exact Nat.le_refl r
    · exact Nat.le_trans (by omega) (ih (r + 1) (mp + mpr / 2) (mpr / 2) m h)

/-- A later-rounds call with at least one remaining round emits at least its
first block. -/
theorem laterRounds_length (tr s r mp mpr : Nat) :
    mpr / 2 ≤ (singleElimLaterRounds tr (s + 1) r mp mpr).length := by
  have hstep : singleElimLaterRounds tr (s + 1) r mp mpr =
      (List.range (mpr / 2)).map (singleElimLaterMatch tr r mp (mpr / 2)) ++
        singleElimLaterRounds tr s (r + 1) (mp + mpr / 2) (mpr / 2) := rfl
  rw [hstep]
  simp [List.length_append]

/-- Transfer along an equality of `seProj` images: an entry of one list
corresponds to an entry of the other with the same non-player fields. -/
theorem proj_transfer (L ms : List BracketMatch) (h1 : ms.map seProj = L.map seProj)
    (j : Nat) (mm : BracketMatch) (hmm : ms.get? j = some mm) :
    ∃ lm, L.get? j = some lm ∧ seProj mm = seProj lm := by
  have hopt : (ms.get? j).map seProj = (L.get? j).map seProj := by
    rw [← get?_map_alt, ← get?_map_alt, h1]
  rw [hmm] at hopt
  rcases hL : L.get? j with _ | lm
  · rw [hL] at hopt; simp at hopt
  · rw [hL] at hopt
    simp only [Option.map_some'] at hopt
    exact ⟨lm, rfl, by injection hopt⟩

/-- `seProj`-equal matches share their position. -/
theorem seProj_position {a b : BracketMatch} (h : seProj a = seProj b) :
    a.position = b.position :=
  congrArg (fun x => x.1) h

/-- `seProj`-equal matches share their round. -/
theorem seProj_round {a b : BracketMatch} (h : seProj a = seProj b) :
    a.round = b.round :=
  congrArg (fun x => x.2.1) h

/-- `seProj`-equal matches share their next-match pointer. -/
theorem seProj_next {a b : BracketMatch} (h : seProj a = seProj b) :
    a.nextMatchId = b.nextMatchId :=
  congrArg (fun x => x.2.2.1) h

/-- `seProj`-equal matches share their next-slot designation. -/
theorem seProj_nextPos {a b : BracketMatch} (h : seProj a = seProj b) :
    a.nextMatchPosition = b.nextMatchPosition :=
  congrArg (fun x => x.2.2.2.1) h

/-- Invariant of the BYE pass of `generateSingleEliminationBracket` over a
base list `L` whose first `half` entries are the round-1 matches: the pass
never changes non-player fields or the round-1 region, and once the loop
counter has passed a one-sided round-1 match, the sole player stands in the
designated slot of the match at the pointed-to position and stays there. -/
theorem processByes_invariant
    (L : List BracketMatch) (half : Nat)
    (hhalf : half ≤ L.length)
    (hpos : ∀ j m, L.get? j = some m → m.position = 1 + j)
    (hr1 : ∀ j m, L.get? j = some m → j < half →
      m.round = 1 ∧ ∃ t, m.nextMatchId = some t ∧ half + 1 ≤ t ∧ t ≤ L.length)
    (hr2 : ∀ j m, L.get? j = some m → half ≤ j → 2 ≤ m.round)
    (hinj : ∀ j j' m m', L.get? j = some m → L.get? j' = some m' →
      j < half → j' < half → m.nextMatchId = m'.nextMatchId →
      selSlot m.nextMatchPosition = selSlot m'.nextMatchPosition → j = j') :
    ∀ fuel ms i,
      ms.map seProj = L.map seProj →
      (∀ j, j < half → ms.get? j = L.get? j) →
      (∀ j m p t, j < i → j < half → L.get? j = some m → solePlayer m = some p →
        m.nextMatchId = some t →
        ∃ m', ms.get? (t - 1) = some m' ∧ slotProj m' m.nextMatchPosition = some p) →
      (processByes fuel ms i).map seProj = L.map seProj ∧
      (∀ j, j < half → (processByes fuel ms i).get? j = L.get? j) ∧
      (∀ j m p t, j < i + fuel → j < half → L.get? j = some m → solePlayer m = some p →
        m.nextMatchId = some t →
        ∃ m', (processByes fuel ms i).get? (t - 1) = some m' ∧
          slotProj m' m.nextMatchPosition = some p) := by
  intro fuel
  induction fuel with
  | zero =>
    intro ms i h1 h2 h3
    exact ⟨h1, h2, fun j m p t hj hjh hL hs hn => h3 j m p t (by omega) hjh hL hs hn⟩
  | succ f ih =>
    intro ms i h1 h2 h3
    have hlen : ms.length = L.length := by
      have := congrArg List.length h1
      simpa using this
    have hposms : ∀ j mm, ms.get? j = some mm → mm.position = 1 + j := by
      intro j mm hmm
      obtain ⟨lm, hlm, hpr⟩ := proj_transfer L ms h1 j mm hmm
      rw [seProj_position hpr]
      exact hpos j lm hlm
    rcases hget : ms.get? i with _ | m
    · have hstep : processByes (f + 1) ms i = processByes f ms (i + 1) := by
        simp only [processByes, hget]
      have h3' : ∀ j m p t, j < i + 1 → j < half → L.get? j = some m →
          solePlayer m = some p → m.nextMatchId = some t →
          ∃ m', ms.get? (t - 1) = some m' ∧ slotProj m' m.nextMatchPosition = some p := by
        intro j m p t hj hjh hL hs hn
        have hiL : L.length ≤ i := by
          have := List.get?_eq_none.1 hget
          omega
        exact h3 j m p t (by omega) hjh hL hs hn
      obtain ⟨a, b, c⟩ := ih ms (i + 1) h1 h2 h3'
      rw [hstep]
      exact ⟨a, b, fun j m p t hj hjh hL hs hn => c j m p t (by omega) hjh hL hs hn⟩
    · by_cases hi : i < half
      · have hLi : L.get? i = some m := by rw [← h2 i hi]; exact hget
        obtain ⟨hround, t, hnext, ht1, ht2⟩ := hr1 i m hLi hi
        have hwrite : ∀ pw : String, solePlayer m = some pw →
            (setSlotAtPosition t m.nextMatchPosition pw ms).map seProj = L.map seProj ∧
            (∀ j, j < half →
              (setSlotAtPosition t m.nextMatchPosition pw ms).get? j = L.get? j) ∧
            (∀ j mj p tj, j < i + 1 → j < half → L.get? j = some mj →
              solePlayer mj = some p → mj.nextMatchId = some tj →
              ∃ m', (setSlotAtPosition t m.nextMatchPosition pw ms).get? (tj - 1) = some m' ∧
                slotProj m' mj.nextMatchPosition = some p) := by
          intro pw hsw
          refine ⟨?_, ?_, ?_⟩
          · rw [setSlot_map_seProj]
            exact h1
          · intro j hj
            rw [setSlot_get?_of_ne]
            · exact h2 j hj
            · intro mm hmm
              have := hposms j mm hmm
              omega
          · intro j mj p tj hj hjh hLj hsj hnj
            by_cases hji : j = i
            · subst hji
              have he := hLi.symm.trans hLj
              injection he with he'
              subst he'
              have htn := hnext.symm.trans hnj
              injection htn with htn'
              subst htn'
              have hpe := hsw.symm.trans hsj
              injection hpe with hpe'
              subst hpe'
              rcases hmt : ms.get? (t - 1) with _ | mt
              · have := List.get?_eq_none.1 hmt
                omega
              · have hmtpos : mt.position = t := by
                  have := hposms (t - 1) mt hmt
                  omega
                refine ⟨setSlotUpd m.nextMatchPosition pw mt, ?_,
                  slotProj_setSlotUpd_same _ _ _⟩
                apply setSlot_get?_first t m.nextMatchPosition pw ms (t - 1) mt hmt hmtpos
                intro j' m' hj' hm'
                have := hposms j' m' hm'
                omega
            · have hjlt : j < i := by omega
              obtain ⟨m', hm', hslot⟩ := h3 j mj p tj hjlt hjh hLj hsj hnj
              obtain ⟨_, tj', hnj', htj1, htj2⟩ := hr1 j mj hLj hjh
              have htn := hnj'.symm.trans hnj
              injection htn with htn'
              subst htn'
              by_cases htt : tj' = t
              · subst htt
                have hm'pos : m'.position = tj' := by
                  have := hposms (tj' - 1) m' hm'
                  omega
                have hsel : selSlot mj.nextMatchPosition ≠ selSlot m.nextMatchPosition := by
                  intro heq
                  have := hinj j i mj m hLj hLi hjh hi (by rw [hnj, hnext]) heq
                  omega
                refine ⟨setSlotUpd m.nextMatchPosition pw m', ?_, ?_⟩
                · apply setSlot_get?_first tj' m.nextMatchPosition pw ms (tj' - 1) m' hm' hm'pos
                  intro j'' m'' hj'' hm''
                  have := hposms j'' m'' hm''
                  omega
                · rw [slotProj_setSlotUpd_other m.nextMatchPosition mj.nextMatchPosition pw m'
                    (fun he => hsel he.symm)]
                  exact hslot
              · refine ⟨m', ?_, hslot⟩
                rw [setSlot_get?_of_ne]
                · exact hm'
                · intro m'' hm''
                  have := hposms (tj' - 1) m'' hm''
                  omega
        rcases hp1 : m.player1Id with _ | p1 <;> rcases hp2 : m.player2Id with _ | p2
        · -- players (none, none): no write
          have hstep : processByes (f + 1) ms i = processByes f ms (i + 1) := by
            simp only [processByes, hget, hround, eq_self_iff_true, if_true, hp1, hp2]
          have h3' : ∀ j mj p tj, j < i + 1 → j < half → L.get? j = some mj →
              solePlayer mj = some p → mj.nextMatchId = some tj →
              ∃ m', ms.get? (tj - 1) = some m' ∧ slotProj m' mj.nextMatchPosition = some p := by
            intro j mj p tj hj hjh hLj hsj hnj
            by_cases hji : j = i
            · subst hji
              have he := hLi.symm.trans hLj
              injection he with he'
              subst he'
              have : solePlayer m = none := by simp only [solePlayer, hp1, hp2]
              rw [this] at hsj
              exact absurd hsj (by simp)
            · exact h3 j mj p tj (by omega) hjh hLj hsj hnj
          obtain ⟨a, b, c⟩ := ih ms (i + 1) h1 h2 h3'
          rw [hstep]
          exact ⟨a, b, fun j mj p tj hj hjh hL hs hn => c j mj p tj (by omega) hjh hL hs hn⟩
        · -- players (none, some): advance player 2
          have hsw : solePlayer m = some p2 := by simp only [solePlayer, hp1, hp2]
          have hstep : processByes (f + 1) ms i =
              processByes f (advanceToNextMatch ms m p2) (i + 1) := by
            simp only [processByes, hget, hround, eq_self_iff_true, if_true, hp1, hp2]
          have hadv : advanceToNextMatch ms m p2 =
              setSlotAtPosition t m.nextMatchPosition p2 ms := by
            simp only [advanceToNextMatch, hnext]
          obtain ⟨a1, a2, a3⟩ := hwrite p2 hsw
          obtain ⟨a, b, c⟩ := ih (setSlotAtPosition t m.nextMatchPosition p2 ms) (i + 1) a1 a2 a3
          rw [hstep, hadv]
          exact ⟨a, b, fun j mj p tj hj hjh hL hs hn => c j mj p tj (by omega) hjh hL hs hn⟩
        · -- players (some, none): advance player 1
          have hsw : solePlayer m = some p1 := by simp only [solePlayer, hp1, hp2]
          have hstep : processByes (f + 1) ms i =
              processByes f (advanceToNextMatch ms m p1) (i + 1) := by
            simp only [processByes, hget, hround, eq_self_iff_true, if_true, hp1, hp2]
          have hadv : advanceToNextMatch ms m p1 =
              setSlotAtPosition t m.nextMatchPosition p1 ms := by
            simp only [advanceToNextMatch, hnext]
          obtain ⟨a1, a2, a3⟩ := hwrite p1 hsw
          obtain ⟨a, b, c⟩ := ih (setSlotAtPosition t m.nextMatchPosition p1 ms) (i + 1) a1 a2 a3
          rw [hstep, hadv]
          exact ⟨a, b, fun j mj p tj hj hjh hL hs hn => c j mj p tj (by omega) hjh hL hs hn⟩
        · -- players (some, some): no write
          have hstep : processByes (f + 1) ms i = processByes f ms (i + 1) := by
            simp only [processByes, hget, hround, eq_self_iff_true, if_true, hp1, hp2]
          have h3' : ∀ j mj p tj, j < i + 1 → j < half → L.get? j = some mj →
              solePlayer mj = some p → mj.nextMatchId = some tj →
              ∃ m', ms.get? (tj - 1) = some m' ∧ slotProj m' mj.nextMatchPosition = some p := by
            intro j mj p tj hj hjh hLj hsj hnj
            by_cases hji : j = i
            · subst hji
              have he := hLi.symm.trans hLj
              injection he with he'
              subst he'
              have : solePlayer m = none := by simp only [solePlayer, hp1, hp2]
              rw [this] at hsj
              exact absurd hsj (by simp)
            · exact h3 j mj p tj (by omega) hjh hLj hsj hnj
          obtain ⟨a, b, c⟩ := ih ms (i + 1) h1 h2 h3'
          rw [hstep]
          exact ⟨a, b, fun j mj p tj hj hjh hL hs hn => c j mj p tj (by omega) hjh hL hs hn⟩
      · -- loop counter beyond the round-1 region: entry has round >= 2
        obtain ⟨lm, hlm, hpr⟩ := proj_transfer L ms h1 i m hget
        have hmr : ¬ m.round = 1 := by
          have h2r := hr2 i lm hlm (by omega)
          have := seProj_round hpr
          omega
        have hstep : processByes (f + 1) ms i = processByes f ms (i + 1) := by
          simp only [processByes, hget, if_neg hmr]
        have h3' : ∀ j mj p tj, j < i + 1 → j < half → L.get? j = some mj →
            solePlayer mj = some p → mj.nextMatchId = some tj →
            ∃ m', ms.get? (tj - 1) = some m' ∧ slotProj m' mj.nextMatchPosition = some p := by
          intro j mj p tj hj hjh hLj hsj hnj
          exact h3 j mj p tj (by omega) hjh hLj hsj hnj
        obtain ⟨a, b, c⟩ := ih ms (i + 1) h1 h2 h3'
        rw [hstep]
        exact ⟨a, b, fun j mj p tj hj hjh hL hs hn => c j mj p tj (by omega) hjh hL hs hn⟩

/-- Helper: the slot selector of a round-1 parity designation. -/
theorem selSlot_parity (jj : Nat) :
    selSlot (some (if jj % 2 = 0 then Slot.player1 else Slot.player2)) =
      decide (jj % 2 = 0) := by
  by_cases h : jj % 2 = 0
  · rw [if_pos h]; simp [selSlot, h]
  · rw [if_neg h]; simp [selSlot, h]

/-- Structure of the pre-BYE match list for a bracket of size `2 ^ (k2 + 2)`
(at least 4): positions are consecutive from 1, the first half of the list is
round 1 with in-range next pointers, the rest is rounds `>= 2`, and distinct
round-1 matches never designate the same slot of the same target. -/
theorem seBase_static (ps : List String) (k2 : Nat)
    (hk : getNextPowerOfTwo ps.length = 2 ^ (k2 + 2)) :
    2 ^ (k2 + 2) / 2 ≤ (seBase ps).length ∧
    (∀ j m, (seBase ps).get? j = some m → m.position = 1 + j) ∧
    (∀ j m, (seBase ps).get? j = some m → j < 2 ^ (k2 + 2) / 2 →
      m.round = 1 ∧ ∃ t, m.nextMatchId = some t ∧
        2 ^ (k2 + 2) / 2 + 1 ≤ t ∧ t ≤ (seBase ps).length) ∧
    (∀ j m, (seBase ps).get? j = some m → 2 ^ (k2 + 2) / 2 ≤ j → 2 ≤ m.round) ∧
    (∀ j j' m m', (seBase ps).get? j = some m → (seBase ps).get? j' = some m' →
      j < 2 ^ (k2 + 2) / 2 → j' < 2 ^ (k2 + 2) / 2 → m.nextMatchId = m'.nextMatchId →
      selSlot m.nextMatchPosition = selSlot m'.nextMatchPosition → j = j') := by
  obtain ⟨q, hq4, hq1⟩ : ∃ q, 2 ^ (k2 + 2) = 4 * q ∧ 1 ≤ q :=
    ⟨2 ^ k2, by ring, Nat.one_le_two_pow⟩
  have hbase : seBase ps =
      (List.range (2 ^ (k2 + 2) / 2)).map
        (singleElimRound1Match (seAllSlots ps) (2 ^ (k2 + 2)) (k2 + 2)) ++
      singleElimLaterRounds (k2 + 2) (k2 + 1) 2 (2 ^ (k2 + 2) / 2 + 1)
        (2 ^ (k2 + 2) / 2) := by
    simp only [seBase, hk, calculateRounds_pow]
    norm_num
  obtain ⟨len, hlen⟩ := laterRounds_positions (k2 + 2) (k2 + 1) 2 (2 ^ (k2 + 2) / 2 + 1)
    (2 ^ (k2 + 2) / 2)
  have hposmap : (seBase ps).map (fun m => m.position) =
      List.range' 1 (2 ^ (k2 + 2) / 2 + len) := by
    rw [hbase, List.map_append,
      map_pos_range _ 1 _ (fun i => Nat.add_comm i 1), hlen]
    have happ := List.range'_append 1 (2 ^ (k2 + 2) / 2) len 1
    have e1 : 1 + 1 * (2 ^ (k2 + 2) / 2) = 2 ^ (k2 + 2) / 2 + 1 := by ring
    rw [e1] at happ
    rw [happ, Nat.add_comm len]
  have hLlen : (seBase ps).length = 2 ^ (k2 + 2) / 2 + len := by
    have := congrArg List.length hposmap
    simpa using this
  have hlenlater : 2 ^ (k2 + 2) / 2 / 2 ≤ len := by
    have h := laterRounds_length (k2 + 2) k2 2 (2 ^ (k2 + 2) / 2 + 1) (2 ^ (k2 + 2) / 2)
    have h2 := congrArg List.length hlen
    simp at h2
    omega
  have hpos : ∀ j m, (seBase ps).get? j = some m → m.position = 1 + j := by
    intro j m hm
    have h1 : ((seBase ps).map (fun m => m.position)).get? j = some m.position := by
      rw [get?_map_alt, hm]
      rfl
    rw [hposmap] at h1
    have hj : j < 2 ^ (k2 + 2) / 2 + len := by
      obtain ⟨hlt, _⟩ := List.get?_eq_some.1 hm
      omega
    rw [get?_range'_alt _ _ _ hj] at h1
    injection h1 with h1'
    omega
  have hr1get : ∀ j, j < 2 ^ (k2 + 2) / 2 → (seBase ps).get? j =
      some (singleElimRound1Match (seAllSlots ps) (2 ^ (k2 + 2)) (k2 + 2) j) := by
    intro j hj
    rw [hbase, get?_append_left_alt]
    · have hr : (List.range (2 ^ (k2 + 2) / 2)).get? j = some j := by
        rw [List.get?_eq_getElem?]
        exact List.getElem?_range hj
      rw [get?_map_alt, hr]
      rfl
    · simpa using hj
  have hnextval : ∀ j, (singleElimRound1Match (seAllSlots ps) (2 ^ (k2 + 2))
      (k2 + 2) j).nextMatchId = some ((j + 2) / 2 + 2 ^ (k2 + 2) / 2) := by
    intro j
    show (if k2 + 2 = 1 then none
      else some ((j + 2) / 2 + 2 ^ (k2 + 2) / 2)) = some ((j + 2) / 2 + 2 ^ (k2 + 2) / 2)
    rw [if_neg (by omega)]
  have hslotval : ∀ j, (singleElimRound1Match (seAllSlots ps) (2 ^ (k2 + 2))
      (k2 + 2) j).nextMatchPosition =
      some (if j % 2 = 0 then Slot.player1 else Slot.player2) := by
    intro j
    show (if k2 + 2 = 1 then none
      else some (if j % 2 = 0 then Slot.player1 else Slot.player2)) = some _
    rw [if_neg (by omega)]
  refine ⟨by omega, hpos, ?_, ?_, ?_⟩
  · intro j m hm hj
    have hg := hr1get j hj
    have he := hm.symm.trans hg
    injection he with he'
    subst he'
    refine ⟨rfl, (j + 2) / 2 + 2 ^ (k2 + 2) / 2, hnextval j, by omega, by omega⟩
  · intro j m hm hge
    rw [hbase, get?_append_right_alt] at hm
    · exact laterRounds_round_ge (k2 + 2) (k2 + 1) 2 _ _ m (List.get?_mem hm)
    · simpa using hge
  · intro j j' m m' hm hm' hj hj' hnext hsel
    have hg := hr1get j hj
    have hg' := hr1get j' hj'
    have he := hm.symm.trans hg
    injection he with he1
    subst he1
    have he' := hm'.symm.trans hg'
    injection he' with he2
    subst he2
    rw [hnextval j, hnextval j'] at hnext
    injection hnext with hnext'
    rw [hslotval j, hslotval j', selSlot_parity j, selSlot_parity j'] at hsel
    have hpar : j % 2 = 0 ↔ j' % 2 = 0 := decide_eq_decide.1 hsel
    omega

/-- C5: in the list `generateSingleEliminationBracket` returns, every round-1
match that has exactly one non-null player carries a `nextMatchId`, and the
match at that position holds the sole player in the slot designated by
`nextMatchPosition`: the BYE pass resolved every one-sided round-1 match
(with two participants the single round-1 match has both players, so the
property is vacuous there, and no further recursion is ever needed). -/
theorem c5_singleElim_bye_resolution (ps : List String) (hn : 2 ≤ ps.length) :
    ∀ m ∈ generateSingleEliminationBracket ps, m.round = 1 →
      ∀ p, solePlayer m = some p →
      ∃ t, m.nextMatchId = some t ∧
        ∃ m', m' ∈ generateSingleEliminationBracket ps ∧ m'.position = t ∧
          slotProj m' m.nextMatchPosition = some p := by
  obtain ⟨k, hk, hnk⟩ := getNextPowerOfTwo_spec ps.length
  rcases k with _ | k1
  · norm_num at hnk
    omega
  rcases k1 with _ | k2
  · norm_num at hnk
    have hlen2 : ps.length = 2 := by omega
    obtain ⟨a, b, rfl⟩ := List.length_eq_two.1 hlen2
    intro m hm hr p hsole
    have hgen : generateSingleEliminationBracket [a, b] =
        [{ round := 1, position := 1, player1Id := some a, player2Id := some b,
           nextMatchId := none, nextMatchPosition := none,
           bracketType := BracketType.winners, losersNextMatchPosition := none }] := by
      show processByes (seBase [a, b]).length (seBase [a, b]) 0 = _
      have hsb : seBase [a, b] =
          [{ round := 1, position := 1, player1Id := some a, player2Id := some b,
             nextMatchId := none, nextMatchPosition := none,
             bracketType := BracketType.winners, losersNextMatchPosition := none }] := by
        show (List.range (getNextPowerOfTwo 2 / 2)).map
            (singleElimRound1Match (seAllSlots [a, b]) (getNextPowerOfTwo 2)
              (calculateRounds (getNextPowerOfTwo 2))) ++
            singleElimLaterRounds (calculateRounds (getNextPowerOfTwo 2))
              (calculateRounds (getNextPowerOfTwo 2) - 1) 2
              (getNextPowerOfTwo 2 / 2 + 1) (getNextPowerOfTwo 2 / 2) = _
        rfl
      rw [hsb]
      rfl
    rw [hgen] at hm
    have hm' := List.mem_singleton.1 hm
    subst hm'
    simp [solePlayer] at hsole
  · intro m hm hround p hsole
    obtain ⟨hhalf, hpos, hr1, hr2, hinj⟩ := seBase_static ps k2 hk
    obtain ⟨inv1, inv2, inv3⟩ := processByes_invariant (seBase ps) (2 ^ (k2 + 2) / 2)
      hhalf hpos hr1 hr2 hinj (seBase ps).length (seBase ps) 0 rfl
      (fun j hj => rfl) (fun j mj pj tj hj => absurd hj (Nat.not_lt_zero j))
    have hres : generateSingleEliminationBracket ps =
        processByes (seBase ps).length (seBase ps) 0 := rfl
    rw [hres] at hm
    obtain ⟨j, hj⟩ := List.get?_of_mem hm
    have hjlt : j < 2 ^ (k2 + 2) / 2 := by
      by_contra hge
      push_neg at hge
      obtain ⟨lm, hlm, hpr⟩ := proj_transfer (seBase ps) _ inv1 j m hj
      have h2r := hr2 j lm hlm hge
      have hrr := seProj_round hpr
      omega
    have hLj : (seBase ps).get? j = some m := by
      rw [← inv2 j hjlt]
      exact hj
    obtain ⟨_, t, hnext, ht1, ht2⟩ := hr1 j m hLj hjlt
    obtain ⟨m', hm', hslot⟩ := inv3 j m p t (by omega) hjlt hLj hsole hnext
    refine ⟨t, hnext, m', ?_, ?_, hslot⟩
    · rw [hres]
      exact List.get?_mem hm'
    · obtain ⟨lm, hlm, hpr⟩ := proj_transfer (seBase ps) _ inv1 (t - 1) m' hm'
      have hpl := hpos (t - 1) lm hlm
      have hpe := seProj_position hpr
      omega

/-- Witness: for the five participants of the spec example (bracket size 8,
three BYEs), the one-sided round-1 match at position 1 has its sole player
standing in slot 1 of the match at its `nextMatchId` 5. -/
theorem c5_singleElim_bye_resolution_witness :
    ∃ m ∈ generateSingleEliminationBracket ["a", "b", "c", "d", "e"],
      m.round = 1 ∧ solePlayer m = some "a" ∧
      ∃ t, m.nextMatchId = some t ∧
        ∃ m', m' ∈ generateSingleEliminationBracket ["a", "b", "c", "d", "e"] ∧
          m'.position = t ∧ slotProj m' m.nextMatchPosition = some "a" := by
  have hmem : ({ round := 1
                 position := 1
                 player1Id := some "a"
                 player2Id := none
                 nextMatchId := some 5
                 nextMatchPosition := some Slot.player1
                 bracketType := BracketType.winners
                 losersNextMatchPosition := none } : BracketMatch) ∈
      generateSingleEliminationBracket ["a", "b", "c", "d", "e"] := by decide
  exact ⟨_, hmem, rfl, rfl,
    c5_singleElim_bye_resolution ["a", "b", "c", "d", "e"] (by norm_num) _ hmem rfl "a" rfl⟩

end CueBot